import Mathlib

/-!
# Verification of the Hydra compiler front end

Shallow embedding of the Hydra compiler front end (lexer, parser, type
checker, and the pure part of lowering) together with proofs of the
specification claims.

The lexer is embedded from `crates/lexer/src/lexer.rs` and
`crates/lexer/src/token.rs`.  The Rust lexer walks a `Vec<char>` with a
mutable cursor; here the character buffer is an explicit `List Char`
parameter and the mutable fields (`current`, `start`, `line`, `column`)
form an explicit state record.  A Rust `Vec` index out of bounds is a
panic; that outcome is modelled by a dedicated `LexRes.panic` result so
that panicking runs are distinguished from `Ok`/`Err` returns.
-/

namespace Lexer

/-- Character-class helper mirroring Rust `char::is_ascii_digit`
(`'0'..='9'`, code points `0x30`-`0x39`). -/
def rust_is_ascii_digit (c : Char) : Bool :=
  0x30 ≤ c.toNat ∧ c.toNat ≤ 0x39

/-- Character-class helper mirroring Rust `char::is_ascii_hexdigit`. -/
def rust_is_ascii_hexdigit (c : Char) : Bool :=
  rust_is_ascii_digit c ∨
  (0x61 ≤ c.toNat ∧ c.toNat ≤ 0x66) ∨
  (0x41 ≤ c.toNat ∧ c.toNat ≤ 0x46)

/-- Model of Rust `char::is_alphabetic` (the Unicode `Alphabetic`
property).  The model is exact on the ASCII range and on the Latin-1
supplement (code points `0xC0`-`0xFF` are alphabetic except `×` `0xD7`
and `÷` `0xF7`, and `0xAA`, `0xB5`, `0xBA` are alphabetic); beyond
Latin-1 the model returns `false`.  Every character appearing in a
concrete input of this development lies in the modelled range. -/
def rust_is_alphabetic (c : Char) : Bool :=
  (0x41 ≤ c.toNat ∧ c.toNat ≤ 0x5A) ∨
  (0x61 ≤ c.toNat ∧ c.toNat ≤ 0x7A) ∨
  (0xC0 ≤ c.toNat ∧ c.toNat ≤ 0xFF ∧ c.toNat ≠ 0xD7 ∧ c.toNat ≠ 0xF7) ∨
  c.toNat = 0xAA ∨ c.toNat = 0xB5 ∨ c.toNat = 0xBA

/-- Model of Rust `char::is_alphanumeric` (`is_alphabetic` or Unicode
numeric).  Exact on ASCII and Latin-1 (where the numeric characters are
the ASCII digits plus `²` `³` `¹` `¼` `½` `¾`); `false` beyond. -/
def rust_is_alphanumeric (c : Char) : Bool :=
  rust_is_alphabetic c ∨ rust_is_ascii_digit c ∨
  c.toNat = 0xB2 ∨ c.toNat = 0xB3 ∨ c.toNat = 0xB9 ∨
  c.toNat = 0xBC ∨ c.toNat = 0xBD ∨ c.toNat = 0xBE

/-- `TokenType` from `crates/lexer/src/token.rs`, including the
`Newline` variant and the `Eof` spelling used by `lexer.rs`.
The Rust `FloatLiteral` payload is an `f64` obtained by parsing the
cleaned literal text; since no claim depends on float arithmetic the
payload here is that cleaned text itself (underscores stripped), which
determines the `f64` value. -/
inductive TokenType where
  | IntLiteral : Int → TokenType
  | FloatLiteral : String → TokenType
  | StringLiteral : String → TokenType
  | CharLiteral : Char → TokenType
  | BoolLiteral : Bool → TokenType
  | Identifier : String → TokenType
  | ISize | I8 | I16 | I32 | I64
  | USize | U8 | U16 | U32 | U64
  | F32 | F64 | Char | Bool
  | Let | Const | Function | Struct | Extension | Return
  | In | As | On | If | Else | For | ForEach | While | Match
  | Break | Continue | Include | Typedef | Trait
  | AnySize | AnyType | None
  | Equal | DoubleEqual | ExclamEqual | LessEqual | GreaterEqual
  | PlusEqual | MinusEqual | StarEqual | ForwardSlashEqual | ModuloEqual
  | AmpersandEqual | PipeEqual | CarrotEqual
  | DoubleLeftEqual | DoubleRightEqual
  | Plus | Minus | Star | ForwardSlash | Modulo | PlusPlus | MinusMinus
  | Ampersand | Pipe | Carrot | DoubleLeftAngle | DoubleRightAngle
  | DoubleAmpersand | DoublePipe | ExclamationMark
  | LeftAngle | RightAngle
  | Arrow | EqualArrow | Dot | DoubleDot | DoubleDotEqual | TripleDot
  | QuestionMark
  | LeftParen | RightParen | LeftBrace | RightBrace
  | LeftBracket | RightBracket | Semicolon | Comma | Colon | DoubleColon
  | Newline
  | Eof

/-- `Token` from `token.rs`: kind, exact source slice, and position. -/
structure Token where
  token_type : TokenType
  lexeme : String
  line : Nat
  column : Nat

/-- The mutable cursor fields of the Rust `Lexer` struct; the character
buffer `chars` never changes after construction and is therefore a
separate parameter of every function. -/
structure LexState where
  current : Nat
  start : Nat
  line : Nat
  column : Nat

/-- Outcome of a lexer computation: `Ok`, `Err`, or a Rust panic
(out-of-bounds `Vec` index). -/
inductive LexRes (α : Type) where
  | ok : α → LexRes α
  | err : String → LexRes α
  | panic : LexRes α

/-- `is_at_end` from `lexer.rs`. -/
def is_at_end (cs : List Char) (s : LexState) : Bool :=
  cs.length ≤ s.current

/-- `peek` from `lexer.rs`: `'\0'` at or past the end. -/
def peek (cs : List Char) (s : LexState) : Char :=
  cs.getD s.current '\x00'

/-- `peek_next` from `lexer.rs`. -/
def peek_next (cs : List Char) (s : LexState) : Char :=
  cs.getD (s.current + 1) '\x00'

/-- The state update performed by a successful `advance` (cursor and
column move one step). -/
def step (s : LexState) : LexState :=
  { s with current := s.current + 1, column := s.column + 1 }

/-- `advance` from `lexer.rs`: reads `chars[current]` and moves on.
Indexing past the end of the buffer is a Rust panic, modelled as
`none`. -/
def advance (cs : List Char) (s : LexState) : Option (Char × LexState) :=
  match cs.get? s.current with
  | some c => some (c, step s)
  | none => none

/-- The `line += 1; column = 0` update performed on seeing `'\\n'`
inside the whitespace, comment and string loops. -/
def newline_adjust (c : Char) (s : LexState) : LexState :=
  if c = '\n' then { s with line := s.line + 1, column := 0 } else s

theorem newline_adjust_current (c : Char) (s : LexState) :
    (newline_adjust c s).current = s.current := by
  unfold newline_adjust
  split <;> rfl

/-- `match_char` from `lexer.rs`. -/
def match_char (cs : List Char) (expected : Char) (s : LexState) :
    Bool × LexState :=
  match cs.get? s.current with
  | some c => if c = expected then (true, step s) else (false, s)
  | none => (false, s)

theorem get?_some_lt {cs : List Char} {n : Nat} {c : Char}
    (h : cs.get? n = some c) : n < cs.length := by
  by_contra hge
  rw [List.get?_eq_none.mpr (Nat.le_of_not_lt hge)] at h
  cases h

/-- `skip_whitespace` from `lexer.rs`: consumes spaces, carriage
returns, tabs and newlines, updating `line`/`column` on `'\n'`. -/
def skip_whitespace (cs : List Char) (s : LexState) : LexState :=
  match h : cs.get? s.current with
  | some c =>
    if c = ' ' ∨ c = '\r' ∨ c = '\t' ∨ c = '\n' then
      skip_whitespace cs (step (newline_adjust c s))
    else s
  | none => s
termination_by cs.length - s.current
decreasing_by
  have := get?_some_lt h
  simp only [step, newline_adjust_current]
  omega

/-- The `//` line-comment loop inside `scan_token`: consume until a
newline or end of input (the newline itself is not consumed). -/
def skip_line_comment (cs : List Char) (s : LexState) : LexState :=
  match h : cs.get? s.current with
  | some c =>
    if c = '\n' then s
    else skip_line_comment cs (step s)
  | none => s
termination_by cs.length - s.current
decreasing_by
  have := get?_some_lt h
  simp only [step, newline_adjust_current]
  omega

/-- The `/* ... */` block-comment loop inside `scan_token`: consume
until the first `*/` (both its characters included) or end of input,
tracking line/column across newlines. -/
def skip_block_comment (cs : List Char) (s : LexState) : LexState :=
  match h : cs.get? s.current with
  | some c =>
    if c = '*' ∧ peek_next cs s = '/' then
      { s with current := s.current + 2, column := s.column + 2 }
    else
      skip_block_comment cs (step (newline_adjust c s))
  | none => s
termination_by cs.length - s.current
decreasing_by
  have := get?_some_lt h
  simp only [step, newline_adjust_current]
  omega

/-- The decimal-digit loop of `scan_number` (digits and `_`). -/
def scan_decimal_digits (cs : List Char) (s : LexState) : LexState :=
  match h : cs.get? s.current with
  | some c =>
    if rust_is_ascii_digit c ∨ c = '_' then
      scan_decimal_digits cs (step s)
    else s
  | none => s
termination_by cs.length - s.current
decreasing_by
  have := get?_some_lt h
  simp only [step, newline_adjust_current]
  omega

/-- The fractional-digit loop of `scan_number` (digits only). -/
def scan_fraction_digits (cs : List Char) (s : LexState) : LexState :=
  match h : cs.get? s.current with
  | some c =>
    if rust_is_ascii_digit c then scan_fraction_digits cs (step s)
    else s
  | none => s
termination_by cs.length - s.current
decreasing_by
  have := get?_some_lt h
  simp only [step, newline_adjust_current]
  omega

/-- The hexadecimal-digit loop of `scan_number` (hex digits and `_`). -/
def scan_hex_digits (cs : List Char) (s : LexState) : LexState :=
  match h : cs.get? s.current with
  | some c =>
    if rust_is_ascii_hexdigit c ∨ c = '_' then
      scan_hex_digits cs (step s)
    else s
  | none => s
termination_by cs.length - s.current
decreasing_by
  have := get?_some_lt h
  simp only [step, newline_adjust_current]
  omega

/-- The binary-digit loop of `scan_number` (`0`, `1` and `_`). -/
def scan_bin_digits (cs : List Char) (s : LexState) : LexState :=
  match h : cs.get? s.current with
  | some c =>
    if c = '0' ∨ c = '1' ∨ c = '_' then
      scan_bin_digits cs (step s)
    else s
  | none => s
termination_by cs.length - s.current
decreasing_by
  have := get?_some_lt h
  simp only [step, newline_adjust_current]
  omega

/-- The identifier loop of `scan_identifier` (alphanumeric or `_`). -/
def scan_ident_chars (cs : List Char) (s : LexState) : LexState :=
  match h : cs.get? s.current with
  | some c =>
    if rust_is_alphanumeric c ∨ c = '_' then
      scan_ident_chars cs (step s)
    else s
  | none => s
termination_by cs.length - s.current
decreasing_by
  have := get?_some_lt h
  simp only [step, newline_adjust_current]
  omega

/-- The source slice `&input[start_offset()..current_offset()]`: the
characters from position `a` (inclusive) to `b` (exclusive). -/
def slice (cs : List Char) (a b : Nat) : String :=
  String.mk ((cs.drop a).take (b - a))


/-- The escape table of `scan_string` (`\n \r \t \" \\`). -/
def string_escape (e : Char) : Option Char :=
  if e = 'n' then some '\n'
  else if e = 'r' then some '\r'
  else if e = 't' then some '\t'
  else if e = '"' then some '"'
  else if e = '\\' then some '\\'
  else none

/-- `scan_string` from `lexer.rs`, with the accumulated value as an
explicit parameter.  The `self.advance()` inside the escape arm indexes
the buffer unguarded, so an input ending right after a backslash is a
panic. -/
def scan_string (cs : List Char) (s : LexState) (value : String) :
    LexRes (TokenType × LexState) :=
  match h : cs.get? s.current with
  | none =>
    .err ("Unterminated string at line " ++ toString s.line ++
      ", column " ++ toString s.column)
  | some c =>
    if c = '"' then .ok (.StringLiteral value, step s)
    else if c = '\\' then
      match cs.get? (s.current + 1) with
      | none => .panic
      | some e =>
        match string_escape e with
        | some ec => scan_string cs (step (step s)) (value.push ec)
        | none =>
          .err ("Invalid escape sequence: \x27\\" ++ e.toString ++ "\x27")
    else if c = '\n' then
      scan_string cs { step s with line := s.line + 1, column := 0 }
        (value.push '\n')
    else scan_string cs (step s) (value.push c)
termination_by cs.length - s.current
decreasing_by
  all_goals have := get?_some_lt h
  all_goals simp only [step]
  all_goals omega

/-- The escape table of `scan_char` (`\n \r \t \' \\`). -/
def char_escape (e : Char) : Option Char :=
  if e = 'n' then some '\n'
  else if e = 'r' then some '\r'
  else if e = 't' then some '\t'
  else if e = '\x27' then some '\x27'
  else if e = '\\' then some '\\'
  else none

/-- The tail of `scan_char`: require an immediate closing quote. -/
def finish_char (cs : List Char) (s : LexState) (c : Char) :
    LexRes (TokenType × LexState) :=
  if peek cs s = '\x27' then .ok (.CharLiteral c, step s)
  else
    .err ("Unterminated or multi-character literal at line " ++
      toString s.line ++ ", column " ++ toString s.column)

/-- `scan_char` from `lexer.rs`.  The second `advance` in the escape
arm is unguarded (panic at end of input). -/
def scan_char (cs : List Char) (s : LexState) :
    LexRes (TokenType × LexState) :=
  if cs.length ≤ s.current then
    .err ("Unterminated char at line " ++ toString s.line ++
      ", column " ++ toString s.column)
  else
    match cs.get? s.current with
    | none => .panic
    | some c0 =>
      if c0 = '\\' then
        match cs.get? (s.current + 1) with
        | none => .panic
        | some e =>
          match char_escape e with
          | some ec => finish_char cs (step (step s)) ec
          | none =>
            .err ("Invalid escape sequence: \x27\\" ++ e.toString ++
              "\x27 at line " ++ toString (step (step s)).line ++
              ", column " ++ toString (step (step s)).column)
      else finish_char cs (step s) c0

/-- `lexeme.replace('_', "")` on the character list. -/
def strip_underscores (l : List Char) : List Char :=
  l.filter (fun c => c ≠ '_')

/-- Numeric value of a (hex) digit character. -/
def hex_val (c : Char) : Nat :=
  if rust_is_ascii_digit c then c.toNat - 0x30
  else if 0x61 ≤ c.toNat ∧ c.toNat ≤ 0x66 then c.toNat - 0x61 + 10
  else if 0x41 ≤ c.toNat ∧ c.toNat ≤ 0x46 then c.toNat - 0x41 + 10
  else 0

/-- Value of a digit string in the given radix. -/
def digits_value (radix : Nat) (l : List Char) : Nat :=
  l.foldl (fun acc c => acc * radix + hex_val c) 0

/-- Model of `i64::from_str_radix` / `str::parse::<i64>` on a string of
digit characters: fails on an empty digit string or on overflow past
`i64::MAX`. -/
def i64_from_digits (radix : Nat) (l : List Char) : Option Int :=
  if l = [] then none
  else if digits_value radix l ≤ 9223372036854775807 then
    some (Int.ofNat (digits_value radix l))
  else none

/-- `scan_number` from `lexer.rs`.  `first_digit` is the already-consumed
first character; `s.start` marks its position.  The `f64` parse of the
float path cannot fail on the scanned shape (digits, underscores, one
dot), so the float arm is always `Ok` with the cleaned text as payload. -/
def scan_number (cs : List Char) (first_digit : Char) (s : LexState) :
    LexRes (TokenType × LexState) :=
  if first_digit = '0' ∧ (peek cs s = 'x' ∨ peek cs s = 'X') then
    let s1 := scan_hex_digits cs (step s)
    let lexeme := slice cs s.start s1.current
    match i64_from_digits 16 (strip_underscores (lexeme.data.drop 2)) with
    | some v => .ok (.IntLiteral v, s1)
    | none => .err ("Invalid hexadecimal literal: \x27" ++ lexeme ++ "\x27")
  else if first_digit = '0' ∧ peek cs s = 'b' then
    let s1 := scan_bin_digits cs (step s)
    let lexeme := slice cs s.start s1.current
    match i64_from_digits 2 (strip_underscores (lexeme.data.drop 2)) with
    | some v => .ok (.IntLiteral v, s1)
    | none => .err ("Invalid binary literal: \x27" ++ lexeme ++ "\x27")
  else
    let s1 := scan_decimal_digits cs s
    if peek cs s1 = '.' ∧ rust_is_ascii_digit (peek_next cs s1) then
      let s2 := scan_fraction_digits cs (step s1)
      let lexeme := slice cs s.start s2.current
      .ok (.FloatLiteral (String.mk (strip_underscores lexeme.data)), s2)
    else
      let lexeme := slice cs s.start s1.current
      match i64_from_digits 10 (strip_underscores lexeme.data) with
      | some v => .ok (.IntLiteral v, s1)
      | none => .err ("Invalid integer literal: \x27" ++ lexeme ++ "\x27")

/-- `get_keyword_or_identifier` from `lexer.rs` (exact table; note the
source has no `"typedef"` entry). -/
def get_keyword_or_identifier (text : String) : TokenType :=
  match text with
  | "isize" => .ISize
  | "usize" => .USize
  | "i8" => .I8
  | "i16" => .I16
  | "i32" => .I32
  | "i64" => .I64
  | "u8" => .U8
  | "u16" => .U16
  | "u32" => .U32
  | "u64" => .U64
  | "f32" => .F32
  | "f64" => .F64
  | "char" => .Char
  | "bool" => .Bool
  | "let" => .Let
  | "const" => .Const
  | "fn" => .Function
  | "struct" => .Struct
  | "extension" => .Extension
  | "return" => .Return
  | "in" => .In
  | "as" => .As
  | "on" => .On
  | "if" => .If
  | "else" => .Else
  | "for" => .For
  | "foreach" => .ForEach
  | "while" => .While
  | "break" => .Break
  | "match" => .Match
  | "continue" => .Continue
  | "include" => .Include
  | "trait" => .Trait
  | "anysize" => .AnySize
  | "anytype" => .AnyType
  | "None" => .None
  | "true" => .BoolLiteral true
  | "false" => .BoolLiteral false
  | _ => .Identifier text

/-- `scan_identifier` from `lexer.rs`. -/
def scan_identifier (cs : List Char) (s : LexState) :
    LexRes (TokenType × LexState) :=
  let s1 := scan_ident_chars cs s
  .ok (get_keyword_or_identifier (slice cs s.start s1.current), s1)

/-- Lift a single-token scanner result into the `Option TokenType`
shape of `scan_token`. -/
def wrap (r : LexRes (TokenType × LexState)) :
    LexRes (Option TokenType × LexState) :=
  match r with
  | .ok (t, s) => .ok (some t, s)
  | .err m => .err m
  | .panic => .panic

/-- `scan_token` from `lexer.rs`: consume one character (a panic if the
cursor is already past the end) and dispatch.  A branch whose Rust code
calls `match_char` and succeeds ends in state `step s1`, which is
exactly the state `match_char` returns on success. -/
def scan_token (cs : List Char) (s : LexState) :
    LexRes (Option TokenType × LexState) :=
  match advance cs s with
  | none => .panic
  | some (c, s1) =>
    match c with
    | '"' => wrap (scan_string cs s1 "")
    | '\x27' => wrap (scan_char cs s1)
    | '(' => .ok (some .LeftParen, s1)
    | ')' => .ok (some .RightParen, s1)
    | '{' => .ok (some .LeftBrace, s1)
    | '}' => .ok (some .RightBrace, s1)
    | '[' => .ok (some .LeftBracket, s1)
    | ']' => .ok (some .RightBracket, s1)
    | ';' => .ok (some .Semicolon, s1)
    | '.' =>
      if peek cs s1 = '.' then
        if peek_next cs s1 = '.' then .ok (some .TripleDot, step (step s1))
        else if peek_next cs s1 = '=' then
          .ok (some .DoubleDotEqual, step (step s1))
        else .ok (some .DoubleDot, step s1)
      else .ok (some .Dot, s1)
    | ':' =>
      if (match_char cs ':' s1).1 then .ok (some .DoubleColon, step s1)
      else .ok (some .Colon, s1)
    | '&' =>
      if (match_char cs '&' s1).1 then .ok (some .DoubleAmpersand, step s1)
      else if (match_char cs '=' s1).1 then .ok (some .AmpersandEqual, step s1)
      else .ok (some .Ampersand, s1)
    | '|' =>
      if (match_char cs '|' s1).1 then .ok (some .DoublePipe, step s1)
      else if (match_char cs '=' s1).1 then .ok (some .PipeEqual, step s1)
      else .ok (some .Pipe, s1)
    | '^' =>
      if (match_char cs '=' s1).1 then .ok (some .CarrotEqual, step s1)
      else .ok (some .Carrot, s1)
    | '?' => .ok (some .QuestionMark, s1)
    | ',' => .ok (some .Comma, s1)
    | '+' =>
      if (match_char cs '=' s1).1 then .ok (some .PlusEqual, step s1)
      else if (match_char cs '+' s1).1 then .ok (some .PlusPlus, step s1)
      else .ok (some .Plus, s1)
    | '-' =>
      if (match_char cs '=' s1).1 then .ok (some .MinusEqual, step s1)
      else if (match_char cs '-' s1).1 then .ok (some .MinusMinus, step s1)
      else if (match_char cs '>' s1).1 then .ok (some .Arrow, step s1)
      else .ok (some .Minus, s1)
    | '*' =>
      if (match_char cs '=' s1).1 then .ok (some .StarEqual, step s1)
      else .ok (some .Star, s1)
    | '/' =>
      if (match_char cs '/' s1).1 then
        .ok (none, skip_line_comment cs (step s1))
      else if (match_char cs '*' s1).1 then
        .ok (none, skip_block_comment cs (step s1))
      else if (match_char cs '=' s1).1 then
        .ok (some .ForwardSlashEqual, step s1)
      else .ok (some .ForwardSlash, s1)
    | '%' =>
      if (match_char cs '=' s1).1 then .ok (some .ModuloEqual, step s1)
      else .ok (some .Modulo, s1)
    | '=' =>
      if (match_char cs '=' s1).1 then .ok (some .DoubleEqual, step s1)
      else if (match_char cs '>' s1).1 then .ok (some .EqualArrow, step s1)
      else .ok (some .Equal, s1)
    | '!' =>
      if (match_char cs '=' s1).1 then .ok (some .ExclamEqual, step s1)
      else .ok (some .ExclamationMark, s1)
    | '<' =>
      if peek cs s1 = '<' ∧ peek_next cs s1 = '=' then
        .ok (some .DoubleLeftEqual, step (step s1))
      else if (match_char cs '<' s1).1 then .ok (some .DoubleLeftAngle, step s1)
      else if (match_char cs '=' s1).1 then .ok (some .LessEqual, step s1)
      else .ok (some .LeftAngle, s1)
    | '>' =>
      if peek cs s1 = '>' ∧ peek_next cs s1 = '=' then
        .ok (some .DoubleRightEqual, step (step s1))
      else if (match_char cs '>' s1).1 then .ok (some .DoubleRightAngle, step s1)
      else if (match_char cs '=' s1).1 then .ok (some .GreaterEqual, step s1)
      else .ok (some .RightAngle, s1)
    | '\n' => .ok (some .Newline, { s1 with line := s1.line + 1, column := 0 })
    | _ =>
      if rust_is_ascii_digit c then wrap (scan_number cs c s1)
      else if rust_is_alphabetic c ∨ c = '_' then wrap (scan_identifier cs s1)
      else
        .err ("Unexpected character \x27" ++ c.toString ++ "\x27 at line " ++
          toString s1.line ++ ", column " ++ toString s1.column)
theorem peek_ne_null_lt {cs : List Char} {s : LexState} {c : Char}
    (h : peek cs s = c) (hc : c ≠ '\x00') : s.current < cs.length := by
  by_contra hge
  rw [peek, List.getD_eq_default _ _ (Nat.le_of_not_lt hge)] at h
  exact hc h.symm

theorem peek_next_ne_null_lt {cs : List Char} {s : LexState} {c : Char}
    (h : peek_next cs s = c) (hc : c ≠ '\x00') :
    s.current + 1 < cs.length := by
  by_contra hge
  rw [peek_next, List.getD_eq_default _ _ (Nat.le_of_not_lt hge)] at h
  exact hc h.symm

theorem match_char_true_lt {cs : List Char} {e : Char} {s : LexState}
    (h : (match_char cs e s).1 = true) : s.current < cs.length := by
  unfold match_char at h
  split at h
  · exact get?_some_lt (by assumption)
  · cases h

theorem match_char_true_snd {cs : List Char} {e : Char} {s : LexState}
    (h : (match_char cs e s).1 = true) : (match_char cs e s).2 = step s := by
  unfold match_char at h ⊢
  split at h
  · split at h
    · simp_all
    · cases h
  · cases h

theorem skip_whitespace_bounds (cs : List Char) (s : LexState) :
    s.current ≤ (skip_whitespace cs s).current ∧
    (skip_whitespace cs s).current ≤ max s.current cs.length := by
  induction s using skip_whitespace.induct cs with
  | case1 s c hget hws ih =>
    rw [skip_whitespace]
    split
    · rename_i c2 heq
      rw [hget] at heq
      cases heq
      rw [if_pos hws]
      have h1 := get?_some_lt hget
      have h2 : (step (newline_adjust c s)).current = s.current + 1 := by
        simp [step, newline_adjust_current]
      omega
    · rename_i heq
      rw [hget] at heq
      cases heq
  | case2 s c hget hws =>
    rw [skip_whitespace]
    split
    · rename_i c2 heq
      rw [hget] at heq
      cases heq
      rw [if_neg hws]
      omega
    · rename_i heq
      rw [hget] at heq
      cases heq
  | case3 s hget =>
    rw [skip_whitespace]
    split
    · rename_i c2 heq
      rw [hget] at heq
      cases heq
    · omega

theorem skip_line_comment_bounds (cs : List Char) (s : LexState) :
    s.current ≤ (skip_line_comment cs s).current ∧
    (skip_line_comment cs s).current ≤ max s.current cs.length := by
  induction s using skip_line_comment.induct cs with
  | case1 s hget =>
    rw [skip_line_comment]
    split
    · rename_i c2 heq
      rw [hget] at heq
      cases heq
      rw [if_pos rfl]
      omega
    · rename_i heq
      rw [hget] at heq
      cases heq
  | case2 s c hget hnl ih =>
    rw [skip_line_comment]
    split
    · rename_i c2 heq
      rw [hget] at heq
      cases heq
      rw [if_neg hnl]
      have h1 := get?_some_lt hget
      have h2 : (step s).current = s.current + 1 := rfl
      omega
    · rename_i heq
      rw [hget] at heq
      cases heq
  | case3 s hget =>
    rw [skip_line_comment]
    split
    · rename_i c2 heq
      rw [hget] at heq
      cases heq
    · omega

theorem skip_block_comment_bounds (cs : List Char) (s : LexState) :
    s.current ≤ (skip_block_comment cs s).current ∧
    (skip_block_comment cs s).current ≤ max s.current cs.length := by
  induction s using skip_block_comment.induct cs with
  | case1 s c hget hcl =>
    rw [skip_block_comment]
    split
    · rename_i c2 heq
      rw [hget] at heq
      cases heq
      rw [if_pos hcl]
      have h1 : s.current + 1 < cs.length :=
        peek_next_ne_null_lt hcl.2 (by decide)
      simp only []
      omega
    · rename_i heq
      rw [hget] at heq
      cases heq
  | case2 s c hget hcl ih =>
    rw [skip_block_comment]
    split
    · rename_i c2 heq
      rw [hget] at heq
      cases heq
      rw [if_neg hcl]
      have h1 := get?_some_lt hget
      have h2 : (step (newline_adjust c s)).current = s.current + 1 := by
        simp [step, newline_adjust_current]
      omega
    · rename_i heq
      rw [hget] at heq
      cases heq
  | case3 s hget =>
    rw [skip_block_comment]
    split
    · rename_i c2 heq
      rw [hget] at heq
      cases heq
    · omega

theorem scan_decimal_digits_bounds (cs : List Char) (s : LexState) :
    s.current ≤ (scan_decimal_digits cs s).current ∧
    (scan_decimal_digits cs s).current ≤ max s.current cs.length := by
  induction s using scan_decimal_digits.induct cs with
  | case1 s c hget hd ih =>
    rw [scan_decimal_digits]
    split
    · rename_i c2 heq
      rw [hget] at heq
      cases heq
      rw [if_pos hd]
      have h1 := get?_some_lt hget
      have h2 : (step s).current = s.current + 1 := rfl
      omega
    · rename_i heq
      rw [hget] at heq
      cases heq
  | case2 s c hget hd =>
    rw [scan_decimal_digits]
    split
    · rename_i c2 heq
      rw [hget] at heq
      cases heq
      rw [if_neg hd]
      omega
    · rename_i heq
      rw [hget] at heq
      cases heq
  | case3 s hget =>
    rw [scan_decimal_digits]
    split
    · rename_i c2 heq
      rw [hget] at heq
      cases heq
    · omega

theorem scan_fraction_digits_bounds (cs : List Char) (s : LexState) :
    s.current ≤ (scan_fraction_digits cs s).current ∧
    (scan_fraction_digits cs s).current ≤ max s.current cs.length := by
  induction s using scan_fraction_digits.induct cs with
  | case1 s c hget hd ih =>
    rw [scan_fraction_digits]
    split
    · rename_i c2 heq
      rw [hget] at heq
      cases heq
      rw [if_pos hd]
      have h1 := get?_some_lt hget
      have h2 : (step s).current = s.current + 1 := rfl
      omega
    · rename_i heq
      rw [hget] at heq
      cases heq
  | case2 s c hget hd =>
    rw [scan_fraction_digits]
    split
    · rename_i c2 heq
      rw [hget] at heq
      cases heq
      rw [if_neg hd]
      omega
    · rename_i heq
      rw [hget] at heq
      cases heq
  | case3 s hget =>
    rw [scan_fraction_digits]
    split
    · rename_i c2 heq
      rw [hget] at heq
      cases heq
    · omega

theorem scan_hex_digits_bounds (cs : List Char) (s : LexState) :
    s.current ≤ (scan_hex_digits cs s).current ∧
    (scan_hex_digits cs s).current ≤ max s.current cs.length := by
  induction s using scan_hex_digits.induct cs with
  | case1 s c hget hd ih =>
    rw [scan_hex_digits]
    split
    · rename_i c2 heq
      rw [hget] at heq
      cases heq
      rw [if_pos hd]
      have h1 := get?_some_lt hget
      have h2 : (step s).current = s.current + 1 := rfl
      omega
    · rename_i heq
      rw [hget] at heq
      cases heq
  | case2 s c hget hd =>
    rw [scan_hex_digits]
    split
    · rename_i c2 heq
      rw [hget] at heq
      cases heq
      rw [if_neg hd]
      omega
    · rename_i heq
      rw [hget] at heq
      cases heq
  | case3 s hget =>
    rw [scan_hex_digits]
    split
    · rename_i c2 heq
      rw [hget] at heq
      cases heq
    · omega

theorem scan_bin_digits_bounds (cs : List Char) (s : LexState) :
    s.current ≤ (scan_bin_digits cs s).current ∧
    (scan_bin_digits cs s).current ≤ max s.current cs.length := by
  induction s using scan_bin_digits.induct cs with
  | case1 s c hget hd ih =>
    rw [scan_bin_digits]
    split
    · rename_i c2 heq
      rw [hget] at heq
      cases heq
      rw [if_pos hd]
      have h1 := get?_some_lt hget
      have h2 : (step s).current = s.current + 1 := rfl
      omega
    · rename_i heq
      rw [hget] at heq
      cases heq
  | case2 s c hget hd =>
    rw [scan_bin_digits]
    split
    · rename_i c2 heq
      rw [hget] at heq
      cases heq
      rw [if_neg hd]
      omega
    · rename_i heq
      rw [hget] at heq
      cases heq
  | case3 s hget =>
    rw [scan_bin_digits]
    split
    · rename_i c2 heq
      rw [hget] at heq
      cases heq
    · omega

theorem scan_ident_chars_bounds (cs : List Char) (s : LexState) :
    s.current ≤ (scan_ident_chars cs s).current ∧
    (scan_ident_chars cs s).current ≤ max s.current cs.length := by
  induction s using scan_ident_chars.induct cs with
  | case1 s c hget hd ih =>
    rw [scan_ident_chars]
    split
    · rename_i c2 heq
      rw [hget] at heq
      cases heq
      rw [if_pos hd]
      have h1 := get?_some_lt hget
      have h2 : (step s).current = s.current + 1 := rfl
      omega
    · rename_i heq
      rw [hget] at heq
      cases heq
  | case2 s c hget hd =>
    rw [scan_ident_chars]
    split
    · rename_i c2 heq
      rw [hget] at heq
      cases heq
      rw [if_neg hd]
      omega
    · rename_i heq
      rw [hget] at heq
      cases heq
  | case3 s hget =>
    rw [scan_ident_chars]
    split
    · rename_i c2 heq
      rw [hget] at heq
      cases heq
    · omega
theorem get_keyword_ne_eof (text : String) :
    get_keyword_or_identifier text ≠ .Eof := by
  unfold get_keyword_or_identifier
  split <;> (intro hx; cases hx)

theorem advance_some {cs : List Char} {s : LexState} {c : Char}
    {s1 : LexState} (h : advance cs s = some (c, s1)) :
    s.current < cs.length ∧ s1 = step s := by
  unfold advance at h
  split at h
  · rename_i heq
    cases h
    exact ⟨get?_some_lt heq, rfl⟩
  · cases h

theorem wrap_eq_ok {x : LexRes (TokenType × LexState)}
    {r : Option TokenType} {s' : LexState} :
    wrap x = .ok (r, s') ↔ ∃ t, x = .ok (t, s') ∧ r = some t := by
  unfold wrap
  constructor
  · intro h
    split at h
    · rename_i t0 s0
      cases h
      exact ⟨t0, rfl, rfl⟩
    · cases h
    · cases h
  · rintro ⟨t, hx, hr⟩
    rw [hx, hr]

theorem scan_string_bounds (cs : List Char) (s : LexState) (v : String)
    {t : TokenType} {s' : LexState} :
    scan_string cs s v = .ok (t, s') →
    s.current < s'.current ∧ s'.current ≤ cs.length ∧ t ≠ .Eof := by
  induction s, v using scan_string.induct cs with
  | case1 s v hget =>
    intro h
    rw [scan_string, hget] at h
    cases h
  | case2 s v hget =>
    intro h
    rw [scan_string, hget] at h
    simp only [if_pos rfl] at h
    cases h
    have := get?_some_lt hget
    refine ⟨by simp [step], ?_, by intro hx; cases hx⟩
    simp only [step]
    omega
  | case3 s v hnext hget hne =>
    intro h
    rw [scan_string, hget] at h
    simp only [if_neg hne, if_pos rfl, hnext, ite_true] at h
    cases h
  | case4 s v e hnext c hesc hget hne ih =>
    intro h
    rw [scan_string, hget] at h
    simp only [if_neg hne, if_pos rfl, hnext, hesc] at h
    obtain ⟨ih1, ih2, ih3⟩ := ih h
    simp only [step] at ih1 ih2
    exact ⟨by omega, by omega, ih3⟩
  | case5 s v e hnext hesc hget hne =>
    intro h
    rw [scan_string, hget] at h
    simp only [if_neg hne, if_pos rfl, hnext, hesc, ite_true] at h
    cases h
  | case6 s v hget hne1 hne2 ih =>
    intro h
    rw [scan_string, hget] at h
    simp only [if_neg hne1, if_neg hne2, if_pos rfl] at h
    obtain ⟨ih1, ih2, ih3⟩ := ih h
    simp only [step] at ih1 ih2
    exact ⟨by omega, by omega, ih3⟩
  | case7 s v c hget hne1 hne2 hne3 ih =>
    intro h
    rw [scan_string, hget] at h
    simp only [if_neg hne1, if_neg hne2, if_neg hne3] at h
    obtain ⟨ih1, ih2, ih3⟩ := ih h
    simp only [step] at ih1 ih2
    exact ⟨by omega, by omega, ih3⟩

theorem finish_char_bounds {cs : List Char} {s : LexState} {c : Char}
    {t : TokenType} {s' : LexState} (h : finish_char cs s c = .ok (t, s')) :
    s.current < s'.current ∧ s'.current ≤ cs.length ∧ t ≠ .Eof := by
  unfold finish_char at h
  split at h
  · rename_i hpk
    cases h
    have := peek_ne_null_lt hpk (by decide)
    refine ⟨by simp [step], ?_, by intro hx; cases hx⟩
    simp only [step]
    omega
  · cases h

theorem scan_char_bounds {cs : List Char} {s : LexState}
    {t : TokenType} {s' : LexState} (h : scan_char cs s = .ok (t, s')) :
    s.current < s'.current ∧ s'.current ≤ cs.length ∧ t ≠ .Eof := by
  unfold scan_char at h
  split at h
  · cases h
  · split at h
    · cases h
    · split at h
      · split at h
        · cases h
        · split at h
          · obtain ⟨h1, h2, h3⟩ := finish_char_bounds h
            simp only [step] at h1 h2
            exact ⟨by omega, by omega, h3⟩
          · cases h
      · obtain ⟨h1, h2, h3⟩ := finish_char_bounds h
        simp only [step] at h1 h2
        exact ⟨by omega, by omega, h3⟩

theorem scan_number_bounds {cs : List Char} {c : Char} {s : LexState}
    {t : TokenType} {s' : LexState} (hle : s.current ≤ cs.length)
    (h : scan_number cs c s = .ok (t, s')) :
    s.current ≤ s'.current ∧ s'.current ≤ cs.length ∧ t ≠ .Eof := by
  simp only [scan_number] at h
  split at h
  · rename_i hx
    have hlt := peek_ne_null_lt (c := peek cs s) rfl (by
      rcases hx.2 with h1 | h1 <;> rw [h1] <;> decide)
    have hb := scan_hex_digits_bounds cs (step s)
    split at h
    · cases h
      simp only [step] at hb ⊢
      exact ⟨by omega, by omega, by intro hx; cases hx⟩
    · cases h
  · split at h
    · rename_i hx
      have hlt := peek_ne_null_lt (c := peek cs s) rfl (by rw [hx.2]; decide)
      have hb := scan_bin_digits_bounds cs (step s)
      split at h
      · cases h
        simp only [step] at hb ⊢
        exact ⟨by omega, by omega, by intro hx; cases hx⟩
      · cases h
    · have hb := scan_decimal_digits_bounds cs s
      split at h
      · rename_i hdot
        have hlt := peek_ne_null_lt (c := peek cs (scan_decimal_digits cs s))
          rfl (by rw [hdot.1]; decide)
        have hb2 := scan_fraction_digits_bounds cs
          (step (scan_decimal_digits cs s))
        cases h
        simp only [step] at hb2 ⊢
        exact ⟨by omega, by omega, by intro hx; cases hx⟩
      · split at h
        · cases h
          exact ⟨by omega, by omega, by intro hx; cases hx⟩
        · cases h

theorem scan_identifier_bounds {cs : List Char} {s : LexState}
    {t : TokenType} {s' : LexState} (hle : s.current ≤ cs.length)
    (h : scan_identifier cs s = .ok (t, s')) :
    s.current ≤ s'.current ∧ s'.current ≤ cs.length ∧ t ≠ .Eof := by
  simp only [scan_identifier] at h
  cases h
  have hb := scan_ident_chars_bounds cs s
  exact ⟨by omega, by omega, get_keyword_ne_eof _⟩
theorem scan_token_spec {cs : List Char} {s : LexState}
    {r : Option TokenType} {s' : LexState}
    (h : scan_token cs s = .ok (r, s')) :
    s.current < s'.current ∧ s'.current ≤ cs.length ∧
      r ≠ some TokenType.Eof := by
  rw [scan_token] at h
  split at h
  · cases h
  · rename_i c s1 hadv
    obtain ⟨hlt, hs1⟩ := advance_some hadv
    subst hs1
    split at h
    · rw [wrap_eq_ok] at h
      obtain ⟨t0, hX, hr⟩ := h
      subst hr
      obtain ⟨h1, h2, h3⟩ := scan_string_bounds cs (step s) "" hX
      simp only [step] at h1
      exact ⟨by omega, h2, by intro hx; exact h3 (Option.some.inj hx)⟩
    · rw [wrap_eq_ok] at h
      obtain ⟨t0, hX, hr⟩ := h
      subst hr
      obtain ⟨h1, h2, h3⟩ := scan_char_bounds hX
      simp only [step] at h1
      exact ⟨by omega, h2, by intro hx; exact h3 (Option.some.inj hx)⟩
    ·
      cases h
      simp only [step]
      refine ⟨by omega, by omega, ?_⟩
      intro hx
      exact absurd (Option.some.inj hx) (by intro hy; cases hy)
    ·
      cases h
      simp only [step]
      refine ⟨by omega, by omega, ?_⟩
      intro hx
      exact absurd (Option.some.inj hx) (by intro hy; cases hy)
    ·
      cases h
      simp only [step]
      refine ⟨by omega, by omega, ?_⟩
      intro hx
      exact absurd (Option.some.inj hx) (by intro hy; cases hy)
    ·
      cases h
      simp only [step]
      refine ⟨by omega, by omega, ?_⟩
      intro hx
      exact absurd (Option.some.inj hx) (by intro hy; cases hy)
    ·
      cases h
      simp only [step]
      refine ⟨by omega, by omega, ?_⟩
      intro hx
      exact absurd (Option.some.inj hx) (by intro hy; cases hy)
    ·
      cases h
      simp only [step]
      refine ⟨by omega, by omega, ?_⟩
      intro hx
      exact absurd (Option.some.inj hx) (by intro hy; cases hy)
    ·
      cases h
      simp only [step]
      refine ⟨by omega, by omega, ?_⟩
      intro hx
      exact absurd (Option.some.inj hx) (by intro hy; cases hy)
    · split at h
      · rename_i hp
        split at h
        · rename_i hq
          have hpn := peek_next_ne_null_lt hq (by decide)
          cases h
          simp only [step] at hpn ⊢
          refine ⟨by omega, by omega, ?_⟩
          intro hx
          exact absurd (Option.some.inj hx) (by intro hy; cases hy)
        · split at h
          · rename_i hq
            have hpn := peek_next_ne_null_lt hq (by decide)
            cases h
            simp only [step] at hpn ⊢
            refine ⟨by omega, by omega, ?_⟩
            intro hx
            exact absurd (Option.some.inj hx) (by intro hy; cases hy)
          · have hpn := peek_ne_null_lt hp (by decide)
            cases h
            simp only [step] at hpn ⊢
            refine ⟨by omega, by omega, ?_⟩
            intro hx
            exact absurd (Option.some.inj hx) (by intro hy; cases hy)
      ·
        cases h
        simp only [step]
        refine ⟨by omega, by omega, ?_⟩
        intro hx
        exact absurd (Option.some.inj hx) (by intro hy; cases hy)
    · split at h
      · rename_i hm
        have hm2 := match_char_true_lt hm
        cases h
        simp only [step] at hm2 ⊢
        refine ⟨by omega, by omega, ?_⟩
        intro hx
        exact absurd (Option.some.inj hx) (by intro hy; cases hy)
      ·
        cases h
        simp only [step]
        refine ⟨by omega, by omega, ?_⟩
        intro hx
        exact absurd (Option.some.inj hx) (by intro hy; cases hy)
    · split at h
      · rename_i hm
        have hm2 := match_char_true_lt hm
        cases h
        simp only [step] at hm2 ⊢
        refine ⟨by omega, by omega, ?_⟩
        intro hx
        exact absurd (Option.some.inj hx) (by intro hy; cases hy)
      · split at h
        · rename_i hm
          have hm2 := match_char_true_lt hm
          cases h
          simp only [step] at hm2 ⊢
          refine ⟨by omega, by omega, ?_⟩
          intro hx
          exact absurd (Option.some.inj hx) (by intro hy; cases hy)
        ·
          cases h
          simp only [step]
          refine ⟨by omega, by omega, ?_⟩
          intro hx
          exact absurd (Option.some.inj hx) (by intro hy; cases hy)
    · split at h
      · rename_i hm
        have hm2 := match_char_true_lt hm
        cases h
        simp only [step] at hm2 ⊢
        refine ⟨by omega, by omega, ?_⟩
        intro hx
        exact absurd (Option.some.inj hx) (by intro hy; cases hy)
      · split at h
        · rename_i hm
          have hm2 := match_char_true_lt hm
          cases h
          simp only [step] at hm2 ⊢
          refine ⟨by omega, by omega, ?_⟩
          intro hx
          exact absurd (Option.some.inj hx) (by intro hy; cases hy)
        ·
          cases h
          simp only [step]
          refine ⟨by omega, by omega, ?_⟩
          intro hx
          exact absurd (Option.some.inj hx) (by intro hy; cases hy)
    · split at h
      · rename_i hm
        have hm2 := match_char_true_lt hm
        cases h
        simp only [step] at hm2 ⊢
        refine ⟨by omega, by omega, ?_⟩
        intro hx
        exact absurd (Option.some.inj hx) (by intro hy; cases hy)
      ·
        cases h
        simp only [step]
        refine ⟨by omega, by omega, ?_⟩
        intro hx
        exact absurd (Option.some.inj hx) (by intro hy; cases hy)
    ·
      cases h
      simp only [step]
      refine ⟨by omega, by omega, ?_⟩
      intro hx
      exact absurd (Option.some.inj hx) (by intro hy; cases hy)
    ·
      cases h
      simp only [step]
      refine ⟨by omega, by omega, ?_⟩
      intro hx
      exact absurd (Option.some.inj hx) (by intro hy; cases hy)
    · split at h
      · rename_i hm
        have hm2 := match_char_true_lt hm
        cases h
        simp only [step] at hm2 ⊢
        refine ⟨by omega, by omega, ?_⟩
        intro hx
        exact absurd (Option.some.inj hx) (by intro hy; cases hy)
      · split at h
        · rename_i hm
          have hm2 := match_char_true_lt hm
          cases h
          simp only [step] at hm2 ⊢
          refine ⟨by omega, by omega, ?_⟩
          intro hx
          exact absurd (Option.some.inj hx) (by intro hy; cases hy)
        ·
          cases h
          simp only [step]
          refine ⟨by omega, by omega, ?_⟩
          intro hx
          exact absurd (Option.some.inj hx) (by intro hy; cases hy)
    · split at h
      · rename_i hm
        have hm2 := match_char_true_lt hm
        cases h
        simp only [step] at hm2 ⊢
        refine ⟨by omega, by omega, ?_⟩
        intro hx
        exact absurd (Option.some.inj hx) (by intro hy; cases hy)
      · split at h
        · rename_i hm
          have hm2 := match_char_true_lt hm
          cases h
          simp only [step] at hm2 ⊢
          refine ⟨by omega, by omega, ?_⟩
          intro hx
          exact absurd (Option.some.inj hx) (by intro hy; cases hy)
        · split at h
          · rename_i hm
            have hm2 := match_char_true_lt hm
            cases h
            simp only [step] at hm2 ⊢
            refine ⟨by omega, by omega, ?_⟩
            intro hx
            exact absurd (Option.some.inj hx) (by intro hy; cases hy)
          ·
            cases h
            simp only [step]
            refine ⟨by omega, by omega, ?_⟩
            intro hx
            exact absurd (Option.some.inj hx) (by intro hy; cases hy)
    · split at h
      · rename_i hm
        have hm2 := match_char_true_lt hm
        cases h
        simp only [step] at hm2 ⊢
        refine ⟨by omega, by omega, ?_⟩
        intro hx
        exact absurd (Option.some.inj hx) (by intro hy; cases hy)
      ·
        cases h
        simp only [step]
        refine ⟨by omega, by omega, ?_⟩
        intro hx
        exact absurd (Option.some.inj hx) (by intro hy; cases hy)
    · split at h
      · rename_i hm
        have hm2 := match_char_true_lt hm
        have hb := skip_line_comment_bounds cs (step (step s))
        cases h
        simp only [step] at hm2 hb ⊢
        exact ⟨by omega, by omega, by intro hx; cases hx⟩
      · split at h
        · rename_i hm
          have hm2 := match_char_true_lt hm
          have hb := skip_block_comment_bounds cs (step (step s))
          cases h
          simp only [step] at hm2 hb ⊢
          exact ⟨by omega, by omega, by intro hx; cases hx⟩
        · split at h
          · rename_i hm
            have hm2 := match_char_true_lt hm
            cases h
            simp only [step] at hm2 ⊢
            refine ⟨by omega, by omega, ?_⟩
            intro hx
            exact absurd (Option.some.inj hx) (by intro hy; cases hy)
          ·
            cases h
            simp only [step]
            refine ⟨by omega, by omega, ?_⟩
            intro hx
            exact absurd (Option.some.inj hx) (by intro hy; cases hy)
    · split at h
      · rename_i hm
        have hm2 := match_char_true_lt hm
        cases h
        simp only [step] at hm2 ⊢
        refine ⟨by omega, by omega, ?_⟩
        intro hx
        exact absurd (Option.some.inj hx) (by intro hy; cases hy)
      ·
        cases h
        simp only [step]
        refine ⟨by omega, by omega, ?_⟩
        intro hx
        exact absurd (Option.some.inj hx) (by intro hy; cases hy)
    · split at h
      · rename_i hm
        have hm2 := match_char_true_lt hm
        cases h
        simp only [step] at hm2 ⊢
        refine ⟨by omega, by omega, ?_⟩
        intro hx
        exact absurd (Option.some.inj hx) (by intro hy; cases hy)
      · split at h
        · rename_i hm
          have hm2 := match_char_true_lt hm
          cases h
          simp only [step] at hm2 ⊢
          refine ⟨by omega, by omega, ?_⟩
          intro hx
          exact absurd (Option.some.inj hx) (by intro hy; cases hy)
        ·
          cases h
          simp only [step]
          refine ⟨by omega, by omega, ?_⟩
          intro hx
          exact absurd (Option.some.inj hx) (by intro hy; cases hy)
    · split at h
      · rename_i hm
        have hm2 := match_char_true_lt hm
        cases h
        simp only [step] at hm2 ⊢
        refine ⟨by omega, by omega, ?_⟩
        intro hx
        exact absurd (Option.some.inj hx) (by intro hy; cases hy)
      ·
        cases h
        simp only [step]
        refine ⟨by omega, by omega, ?_⟩
        intro hx
        exact absurd (Option.some.inj hx) (by intro hy; cases hy)
    · split at h
      · rename_i hpq
        have hpn := peek_next_ne_null_lt hpq.2 (by decide)
        cases h
        simp only [step] at hpn ⊢
        refine ⟨by omega, by omega, ?_⟩
        intro hx
        exact absurd (Option.some.inj hx) (by intro hy; cases hy)
      · split at h
        · rename_i hm
          have hm2 := match_char_true_lt hm
          cases h
          simp only [step] at hm2 ⊢
          refine ⟨by omega, by omega, ?_⟩
          intro hx
          exact absurd (Option.some.inj hx) (by intro hy; cases hy)
        · split at h
          · rename_i hm
            have hm2 := match_char_true_lt hm
            cases h
            simp only [step] at hm2 ⊢
            refine ⟨by omega, by omega, ?_⟩
            intro hx
            exact absurd (Option.some.inj hx) (by intro hy; cases hy)
          ·
            cases h
            simp only [step]
            refine ⟨by omega, by omega, ?_⟩
            intro hx
            exact absurd (Option.some.inj hx) (by intro hy; cases hy)
    · split at h
      · rename_i hpq
        have hpn := peek_next_ne_null_lt hpq.2 (by decide)
        cases h
        simp only [step] at hpn ⊢
        refine ⟨by omega, by omega, ?_⟩
        intro hx
        exact absurd (Option.some.inj hx) (by intro hy; cases hy)
      · split at h
        · rename_i hm
          have hm2 := match_char_true_lt hm
          cases h
          simp only [step] at hm2 ⊢
          refine ⟨by omega, by omega, ?_⟩
          intro hx
          exact absurd (Option.some.inj hx) (by intro hy; cases hy)
        · split at h
          · rename_i hm
            have hm2 := match_char_true_lt hm
            cases h
            simp only [step] at hm2 ⊢
            refine ⟨by omega, by omega, ?_⟩
            intro hx
            exact absurd (Option.some.inj hx) (by intro hy; cases hy)
          ·
            cases h
            simp only [step]
            refine ⟨by omega, by omega, ?_⟩
            intro hx
            exact absurd (Option.some.inj hx) (by intro hy; cases hy)
    ·
      cases h
      simp only [step]
      refine ⟨by omega, by omega, ?_⟩
      intro hx
      exact absurd (Option.some.inj hx) (by intro hy; cases hy)
    · split at h
      · rw [wrap_eq_ok] at h
        obtain ⟨t0, hX, hr⟩ := h
        subst hr
        obtain ⟨h1, h2, h3⟩ :=
          scan_number_bounds (by simp only [step]; omega) hX
        simp only [step] at h1
        exact ⟨by omega, h2, by intro hx; exact h3 (Option.some.inj hx)⟩
      · split at h
        · rw [wrap_eq_ok] at h
          obtain ⟨t0, hX, hr⟩ := h
          subst hr
          obtain ⟨h1, h2, h3⟩ :=
            scan_identifier_bounds (by simp only [step]; omega) hX
          simp only [step] at h1
          exact ⟨by omega, h2, by intro hx; exact h3 (Option.some.inj hx)⟩
        · cases h

unseal skip_whitespace skip_line_comment skip_block_comment
  scan_decimal_digits scan_fraction_digits scan_hex_digits scan_bin_digits
  scan_ident_chars scan_string

/-- One `Token` as pushed by the `tokenize` main loop: `start_line` and
`start_column` are recorded after `skip_whitespace`, the lexeme is the
slice between `self.start` and the cursor after `scan_token`. -/
def mk_token (cs : List Char) (tt : TokenType) (s1 s2 : LexState) : Token :=
  { token_type := tt
    lexeme := slice cs s1.start s2.current
    line := s1.line
    column := s1.column }

/-- The main loop of `tokenize` from `lexer.rs`: while not at the end,
skip whitespace, remember the token start, scan one token and push it
(comments push nothing); at the end push the `Eof` token. -/
def tokenize_loop (cs : List Char) (s : LexState) : LexRes (List Token) :=
  if hend : cs.length ≤ s.current then
    .ok [{ token_type := .Eof, lexeme := "", line := s.line, column := s.column }]
  else
    let s0 := skip_whitespace cs s
    let s1 : LexState := { s0 with start := s0.current }
    match hscan : scan_token cs s1 with
    | .err m => .err m
    | .panic => .panic
    | .ok (none, s2) => tokenize_loop cs s2
    | .ok (some tt, s2) =>
      match tokenize_loop cs s2 with
      | .ok rest => .ok (mk_token cs tt s1 s2 :: rest)
      | .err m => .err m
      | .panic => .panic
termination_by cs.length - s.current
decreasing_by
  · have hb := scan_token_spec hscan
    have hw : s.current ≤ s0.current := (skip_whitespace_bounds cs s).1
    have hs1 : s1.current = s0.current := rfl
    omega
  · have hb := scan_token_spec hscan
    have hw : s.current ≤ s0.current := (skip_whitespace_bounds cs s).1
    have hs1 : s1.current = s0.current := rfl
    omega

unseal tokenize_loop

/-- `tokenize` from `lexer.rs`: run the main loop from the initial
lexer state (`current = 0`, `start = 0`, `line = 1`, `column = 1`). -/
def tokenize (cs : List Char) : LexRes (List Token) :=
  tokenize_loop cs { current := 0, start := 0, line := 1, column := 1 }

/-- `true` exactly on `Eof` tokens. -/
def is_eof (t : Token) : Bool :=
  match t.token_type with
  | .Eof => true
  | _ => false

/-- Every `Ok` result of the main loop is a list of non-`Eof` tokens
followed by a single final `Eof` token. -/
theorem tokenize_loop_eof_fuel {cs : List Char} :
    ∀ (N : Nat) (s : LexState) (ts : List Token),
      cs.length - s.current ≤ N → tokenize_loop cs s = .ok ts →
      ∃ pre last, ts = pre ++ [last] ∧ last.token_type = .Eof ∧
        ∀ t ∈ pre, t.token_type ≠ .Eof := by
  intro N
  induction N with
  | zero =>
    intro s ts hN h
    rw [tokenize_loop, dif_pos (by omega)] at h
    cases h
    exact ⟨[], _, rfl, rfl, by intro t ht; cases ht⟩
  | succ N ihN =>
    intro s ts hN h
    rw [tokenize_loop] at h
    by_cases hend : cs.length ≤ s.current
    · rw [dif_pos hend] at h
      cases h
      exact ⟨[], _, rfl, rfl, by intro t ht; cases ht⟩
    · rw [dif_neg hend] at h
      have hw := (skip_whitespace_bounds cs s).1
      dsimp only [] at h
      split at h
      · cases h
      · cases h
      · rename_i s2 heq
        have hb := scan_token_spec heq
        exact ihN s2 ts (by simp only [] at hb; omega) h
      · rename_i tt s2 heq
        have hb := scan_token_spec heq
        split at h
        · rename_i rest hrest
          cases h
          obtain ⟨pre, last, hdec, hlast, hpre⟩ :=
            ihN s2 rest (by simp only [] at hb; omega) hrest
          subst hdec
          refine ⟨_ :: pre, last, rfl, hlast, ?_⟩
          intro t ht
          rcases List.mem_cons.mp ht with h1 | h1
          · subst h1
            have h3 := hb.2.2
            simp only [mk_token]
            intro hx
            exact h3 (by rw [hx])
          · exact hpre t h1
        · cases h
        · cases h

theorem tokenize_loop_eof {cs : List Char} {s : LexState}
    {ts : List Token} (h : tokenize_loop cs s = .ok ts) :
    ∃ pre last, ts = pre ++ [last] ∧ last.token_type = .Eof ∧
      ∀ t ∈ pre, t.token_type ≠ .Eof :=
  tokenize_loop_eof_fuel (cs.length - s.current) s ts (Nat.le_refl _) h

/-- **C1.** For every source text on which `tokenize` returns `Ok`, the
returned token sequence contains exactly one end-of-input (`Eof`) token
and that token is the last element of the sequence. -/
theorem tokenize_eof_unique_last {l : List Char} {ts : List Token}
    (h : tokenize l = .ok ts) :
    ts.countP is_eof = 1 ∧
      ∃ last, ts.getLast? = some last ∧ is_eof last = true := by
  obtain ⟨pre, last, hdec, hlast, hpre⟩ := tokenize_loop_eof h
  subst hdec
  constructor
  · rw [List.countP_append]
    have h0 : pre.countP is_eof = 0 := by
      rw [List.countP_eq_zero]
      intro t ht
      have := hpre t ht
      unfold is_eof
      split
      · rename_i heq
        exact absurd heq this
      · simp
    rw [h0]
    simp [List.countP_cons, is_eof, hlast]
  · refine ⟨last, ?_, ?_⟩
    · rw [List.getLast?_concat]
    · unfold is_eof
      rw [hlast]

/-- Witness for **C1** at the concrete source text `"a"`. -/
theorem tokenize_eof_unique_last_witness :
    [Token.mk (.Identifier "a") "a" 1 1,
     Token.mk .Eof "" 1 2].countP is_eof = 1 ∧
      ∃ last,
        [Token.mk (.Identifier "a") "a" 1 1,
         Token.mk .Eof "" 1 2].getLast? = some last ∧
        is_eof last = true :=
  tokenize_eof_unique_last (l := "a".data) rfl

/-- **C3.** Maximal munch for multi-character operators: `"<<="` lexes
to exactly one shift-assign token (`DoubleLeftEqual`), never `<` `<`
`=`, and `"..="` lexes to exactly one inclusive-range token
(`DoubleDotEqual`), never `.` `.` `=`; each is followed only by the
terminal `Eof` token. -/
theorem tokenize_maximal_munch :
    tokenize "<<=".data =
      .ok [{ token_type := .DoubleLeftEqual, lexeme := "<<=", line := 1,
             column := 1 },
           { token_type := .Eof, lexeme := "", line := 1, column := 4 }] ∧
    tokenize "..=".data =
      .ok [{ token_type := .DoubleDotEqual, lexeme := "..=", line := 1,
             column := 1 },
           { token_type := .Eof, lexeme := "", line := 1, column := 4 }] :=
  ⟨rfl, rfl⟩
/-- If every character from the cursor to the end of the buffer is
alphanumeric or `_`, the identifier loop consumes the whole remainder,
advancing the column accordingly. -/
theorem scan_ident_chars_all {l : List Char} : ∀ {s : LexState},
    s.current ≤ l.length →
    (∀ i c, s.current ≤ i → l.get? i = some c →
      rust_is_alphanumeric c = true ∨ c = '_') →
    scan_ident_chars l s =
      { current := l.length, start := s.start, line := s.line,
        column := s.column + (l.length - s.current) } := by
  intro s
  induction s using scan_ident_chars.induct l with
  | case1 s c hget hd ih =>
    intro hle hall
    rw [scan_ident_chars]
    split
    · rename_i c2 heq
      rw [hget] at heq
      cases heq
      rw [if_pos hd]
      have hlt := get?_some_lt hget
      rw [ih (by simp [step]; omega)
        (by intro i d hi hgd; exact hall i d (by simp [step] at hi; omega) hgd)]
      simp only [step]
      rw [LexState.mk.injEq]
      refine ⟨rfl, rfl, rfl, by omega⟩
    · rename_i heq
      rw [hget] at heq
      cases heq
  | case2 s c hget hd =>
    intro hle hall
    rcases hall s.current c (Nat.le_refl _) hget with h | h
    · exact absurd (Or.inl h) hd
    · exact absurd (Or.inr h) hd
  | case3 s hget =>
    intro hle hall
    rw [scan_ident_chars]
    split
    · rename_i c2 heq
      rw [hget] at heq
      cases heq
    · have := List.get?_eq_none.mp hget
      rw [LexState.mk.injEq]
      refine ⟨by omega, rfl, rfl, by omega⟩

/-- The ASCII identifier pattern `[A-Za-z_][A-Za-z0-9_]*` stated by the
specification (`Char.isAlpha`/`Char.isAlphanum` are the ASCII classes). -/
def matches_ascii_ident (l : List Char) : Bool :=
  match l with
  | [] => false
  | c :: rest => (c.isAlpha || c = '_') && rest.all (fun d => d.isAlphanum || d = '_')
/-- **C8 (counterexample).** The claim's character classes are ASCII,
but the lexer uses Rust's Unicode `is_alphabetic`/`is_alphanumeric`:
the source text `"é"` does not match `[A-Za-z_][A-Za-z0-9_]*`, yet it
is lexed as an identifier token (not an error). -/
theorem tokenize_identifier_ascii_counterexample :
    tokenize "é".data =
      .ok [{ token_type := .Identifier "é", lexeme := "é", line := 1,
             column := 1 },
           { token_type := .Eof, lexeme := "", line := 1, column := 2 }] ∧
    matches_ascii_ident "é".data = false :=
  ⟨rfl, rfl⟩

/-- **C8 (amended).** A source text consisting of one character that is
Unicode-alphabetic (per Rust `char::is_alphabetic`) or `_`, followed by
characters that are Unicode-alphanumeric or `_`, is lexed as exactly one
identifier-or-keyword token carrying the full text (followed by `Eof`);
spellings in the fixed keyword table become their dedicated token kinds
and every other such word becomes an `Identifier` token. -/
theorem tokenize_identifier_unicode (c : Char) (rest : List Char)
    (hhead : rust_is_alphabetic c = true ∨ c = '_')
    (htail : ∀ d ∈ rest, rust_is_alphanumeric d = true ∨ d = '_') :
    tokenize (c :: rest) =
      .ok [{ token_type := get_keyword_or_identifier (String.mk (c :: rest)),
             lexeme := String.mk (c :: rest), line := 1, column := 1 },
           { token_type := .Eof, lexeme := "", line := 1,
             column := (c :: rest).length + 2 - 1 }] := by
  have hnd : rust_is_ascii_digit c = false := by
    rcases hhead with h | h
    · simp only [rust_is_alphabetic, decide_eq_true_eq] at h
      have hx : ¬(0x30 ≤ c.toNat ∧ c.toNat ≤ 0x39) := by
        rcases h with h | h | h | h | h | h <;> omega
      unfold rust_is_ascii_digit
      exact decide_eq_false hx
    · subst h
      rfl
  have hsw : skip_whitespace (c :: rest) ⟨0, 0, 1, 1⟩ = ⟨0, 0, 1, 1⟩ := by
    rw [skip_whitespace]
    have hg : (c :: rest).get? (0 : Nat) = some c := rfl
    split
    · rename_i c2 heq
      rw [hg] at heq
      cases heq
      rw [if_neg]
      intro hws
      rcases hhead with h | h
      · simp only [rust_is_alphabetic, decide_eq_true_eq] at h
        rcases hws with rfl | rfl | rfl | rfl <;>
          rcases h with h | h | h | h | h | h <;> simp_all
      · subst h
        exact absurd hws (by decide)
    · rfl
  have hident : ∀ i d, (1 : Nat) ≤ i → (c :: rest).get? i = some d →
      rust_is_alphanumeric d = true ∨ d = '_' := by
    intro i d hi hgd
    match i, hi with
    | Nat.succ j, _ =>
      rw [List.get?_cons_succ] at hgd
      exact htail d (List.get?_mem hgd)
  have hscan : scan_token (c :: rest) ⟨0, 0, 1, 1⟩ =
      .ok (some (get_keyword_or_identifier (String.mk (c :: rest))),
        ⟨(c :: rest).length, 0, 1, (c :: rest).length + 1⟩) := by
    rw [scan_token]
    have hadv : advance (c :: rest) ⟨0, 0, 1, 1⟩ = some (c, step ⟨0, 0, 1, 1⟩) :=
      rfl
    rw [hadv]
    dsimp only []
    have hscl := scan_ident_chars_all (l := c :: rest)
      (s := step ⟨0, 0, 1, 1⟩) (by simp [step]) (by
        intro i d hi hgd
        exact hident i d (by simpa [step] using hi) hgd)
    split
    all_goals try (exact absurd hhead (by decide))
    rw [if_neg (by rw [hnd]; intro hx; cases hx), if_pos hhead]
    unfold scan_identifier
    rw [hscl]
    simp only [wrap, step, slice]
    rw [LexRes.ok.injEq, Prod.mk.injEq]
    constructor
    · rw [Option.some.injEq]
      congr 1
      simp
    · rw [LexState.mk.injEq]
      refine ⟨rfl, rfl, rfl, ?_⟩
      simp only [List.length_cons]
      omega
  rw [tokenize]
  rw [tokenize_loop.eq_def, dif_neg (by simp)]
  dsimp only []
  rw [hsw]
  dsimp only []
  rw [hscan]
  dsimp only []
  rw [tokenize_loop.eq_def, dif_pos (by simp)]
  rw [LexRes.ok.injEq]
  simp only [mk_token, slice, List.length_cons, List.drop_zero, Nat.sub_zero]
  have htake : List.take (rest.length + 1) (c :: rest) = c :: rest := by
    rw [show rest.length + 1 = (c :: rest).length from by simp]
    exact List.take_length _
  rw [htake]
  have hcol : rest.length + 1 + 2 - 1 = rest.length + 1 + 1 := by omega
  rw [hcol]

/-- Witness for **C8 (amended)** at the concrete word `"foo"` (an
identifier) — the hypotheses hold and the conclusion evaluates. -/
theorem tokenize_identifier_unicode_witness :
    tokenize ('f' :: "oo".data) =
      .ok [{ token_type := get_keyword_or_identifier (String.mk ('f' :: "oo".data)),
             lexeme := String.mk ('f' :: "oo".data), line := 1, column := 1 },
           { token_type := .Eof, lexeme := "", line := 1,
             column := ('f' :: "oo".data).length + 2 - 1 }] :=
  tokenize_identifier_unicode 'f' "oo".data (by decide)
    (by intro d hd; fin_cases hd <;> decide)
/-- `true` when the list contains no `//` or `/*` adjacent pair (so the
lexer can never start a comment inside it). -/
def no_comment_start : List Char → Bool
  | a :: b :: rest =>
    !(a = '/' && (b = '/' || b = '*')) && no_comment_start (b :: rest)
  | _ => true

/-- `true` when the list contains no `*/` adjacent pair (an open block
comment is never closed inside it). -/
def no_block_close : List Char → Bool
  | a :: b :: rest => !(a = '*' && b = '/') && no_block_close (b :: rest)
  | _ => true

theorem no_comment_start_pair : ∀ {l : List Char},
    no_comment_start l = true → ∀ {i : Nat} {d : Char},
    l.get? i = some '/' → l.get? (i + 1) = some d → d ≠ '/' ∧ d ≠ '*' := by
  intro l
  induction l with
  | nil =>
    intro _ i d h1
    cases h1
  | cons a rest ih =>
    intro h i d h1 h2
    match rest, i with
    | [], 0 => cases h2
    | [], Nat.succ j => cases h2
    | b :: rest2, 0 =>
      rw [List.get?_cons_zero] at h1
      cases h1
      rw [List.get?_cons_succ, List.get?_cons_zero] at h2
      cases h2
      unfold no_comment_start at h
      rw [Bool.and_eq_true, Bool.not_eq_true'] at h
      obtain ⟨h3, _⟩ := h
      constructor
      · intro hx
        subst hx
        simp at h3
      · intro hx
        subst hx
        simp at h3
    | b :: rest2, Nat.succ j =>
      rw [List.get?_cons_succ] at h1 h2
      unfold no_comment_start at h
      rw [Bool.and_eq_true] at h
      exact ih h.2 h1 h2

theorem no_block_close_pair : ∀ {l : List Char},
    no_block_close l = true → ∀ {i : Nat},
    ¬(l.get? i = some '*' ∧ l.get? (i + 1) = some '/') := by
  intro l
  induction l with
  | nil =>
    intro _ i ⟨h1, _⟩
    cases h1
  | cons a rest ih =>
    intro h i ⟨h1, h2⟩
    match rest, i with
    | [], 0 => cases h2
    | [], Nat.succ j => cases h2
    | b :: rest2, 0 =>
      rw [List.get?_cons_zero] at h1
      cases h1
      rw [List.get?_cons_succ, List.get?_cons_zero] at h2
      cases h2
      unfold no_block_close at h
      rw [Bool.and_eq_true, Bool.not_eq_true'] at h
      simp at h
    | b :: rest2, Nat.succ j =>
      rw [List.get?_cons_succ] at h1 h2
      unfold no_block_close at h
      rw [Bool.and_eq_true] at h
      exact ih h.2 ⟨h1, h2⟩
theorem skip_whitespace_none {cs : List Char} {s : LexState}
    (h : cs.get? s.current = none) : skip_whitespace cs s = s := by
  rw [skip_whitespace]
  split
  · rename_i c2 heq
    rw [h] at heq
    cases heq
  · rfl

theorem skip_whitespace_cons {cs : List Char} {s : LexState} {c : Char}
    (h : cs.get? s.current = some c) :
    skip_whitespace cs s =
      (if c = ' ' ∨ c = '\r' ∨ c = '\t' ∨ c = '\n' then skip_whitespace cs (step (newline_adjust c s)) else s) := by
  rw [skip_whitespace]
  split
  · rename_i c2 heq
    rw [h] at heq
    cases heq
    rfl
  · rename_i heq
    rw [h] at heq
    cases heq

theorem skip_line_comment_none {cs : List Char} {s : LexState}
    (h : cs.get? s.current = none) : skip_line_comment cs s = s := by
  rw [skip_line_comment]
  split
  · rename_i c2 heq
    rw [h] at heq
    cases heq
  · rfl

theorem skip_line_comment_cons {cs : List Char} {s : LexState} {c : Char}
    (h : cs.get? s.current = some c) :
    skip_line_comment cs s =
      (if c = '\n' then s else skip_line_comment cs (step s)) := by
  rw [skip_line_comment]
  split
  · rename_i c2 heq
    rw [h] at heq
    cases heq
    rfl
  · rename_i heq
    rw [h] at heq
    cases heq

theorem skip_block_comment_none {cs : List Char} {s : LexState}
    (h : cs.get? s.current = none) : skip_block_comment cs s = s := by
  rw [skip_block_comment]
  split
  · rename_i c2 heq
    rw [h] at heq
    cases heq
  · rfl

theorem skip_block_comment_cons {cs : List Char} {s : LexState} {c : Char}
    (h : cs.get? s.current = some c) :
    skip_block_comment cs s =
      (if c = '*' ∧ peek_next cs s = '/' then { s with current := s.current + 2, column := s.column + 2 } else skip_block_comment cs (step (newline_adjust c s))) := by
  rw [skip_block_comment]
  split
  · rename_i c2 heq
    rw [h] at heq
    cases heq
    rfl
  · rename_i heq
    rw [h] at heq
    cases heq

theorem scan_decimal_digits_none {l : List Char} {s : LexState}
    (h : l.get? s.current = none) : scan_decimal_digits l s = s := by
  rw [scan_decimal_digits]
  split
  · rename_i c2 heq
    rw [h] at heq
    cases heq
  · rfl

theorem scan_decimal_digits_cons {l : List Char} {s : LexState} {c : Char}
    (h : l.get? s.current = some c) :
    scan_decimal_digits l s =
      (if rust_is_ascii_digit c ∨ c = '_' then scan_decimal_digits l (step s) else s) := by
  rw [scan_decimal_digits]
  split
  · rename_i c2 heq
    rw [h] at heq
    cases heq
    rfl
  · rename_i heq
    rw [h] at heq
    cases heq

theorem scan_fraction_digits_none {l : List Char} {s : LexState}
    (h : l.get? s.current = none) : scan_fraction_digits l s = s := by
  rw [scan_fraction_digits]
  split
  · rename_i c2 heq
    rw [h] at heq
    cases heq
  · rfl

theorem scan_fraction_digits_cons {l : List Char} {s : LexState} {c : Char}
    (h : l.get? s.current = some c) :
    scan_fraction_digits l s =
      (if rust_is_ascii_digit c then scan_fraction_digits l (step s) else s) := by
  rw [scan_fraction_digits]
  split
  · rename_i c2 heq
    rw [h] at heq
    cases heq
    rfl
  · rename_i heq
    rw [h] at heq
    cases heq

theorem scan_hex_digits_none {l : List Char} {s : LexState}
    (h : l.get? s.current = none) : scan_hex_digits l s = s := by
  rw [scan_hex_digits]
  split
  · rename_i c2 heq
    rw [h] at heq
    cases heq
  · rfl

theorem scan_hex_digits_cons {l : List Char} {s : LexState} {c : Char}
    (h : l.get? s.current = some c) :
    scan_hex_digits l s =
      (if rust_is_ascii_hexdigit c ∨ c = '_' then scan_hex_digits l (step s) else s) := by
  rw [scan_hex_digits]
  split
  · rename_i c2 heq
    rw [h] at heq
    cases heq
    rfl
  · rename_i heq
    rw [h] at heq
    cases heq

theorem scan_bin_digits_none {l : List Char} {s : LexState}
    (h : l.get? s.current = none) : scan_bin_digits l s = s := by
  rw [scan_bin_digits]
  split
  · rename_i c2 heq
    rw [h] at heq
    cases heq
  · rfl

theorem scan_bin_digits_cons {l : List Char} {s : LexState} {c : Char}
    (h : l.get? s.current = some c) :
    scan_bin_digits l s =
      (if c = '0' ∨ c = '1' ∨ c = '_' then scan_bin_digits l (step s) else s) := by
  rw [scan_bin_digits]
  split
  · rename_i c2 heq
    rw [h] at heq
    cases heq
    rfl
  · rename_i heq
    rw [h] at heq
    cases heq

theorem scan_ident_chars_none {l : List Char} {s : LexState}
    (h : l.get? s.current = none) : scan_ident_chars l s = s := by
  rw [scan_ident_chars]
  split
  · rename_i c2 heq
    rw [h] at heq
    cases heq
  · rfl

theorem scan_ident_chars_cons {l : List Char} {s : LexState} {c : Char}
    (h : l.get? s.current = some c) :
    scan_ident_chars l s =
      (if rust_is_alphanumeric c ∨ c = '_' then scan_ident_chars l (step s) else s) := by
  rw [scan_ident_chars]
  split
  · rename_i c2 heq
    rw [h] at heq
    cases heq
    rfl
  · rename_i heq
    rw [h] at heq
    cases heq
theorem get?_append_lt {pre suf : List Char} {i : Nat}
    (h : i < pre.length) : (pre ++ suf).get? i = pre.get? i :=
  List.get?_append h

theorem get?_append_boundary (pre : List Char) (b : Char) (t2 : List Char) :
    (pre ++ b :: t2).get? pre.length = some b := by
  rw [List.get?_append_right (Nat.le_refl _)]
  simp

theorem scan_decimal_digits_ext {pre : List Char} {b : Char} {t2 : List Char}
    (hb : ¬(rust_is_ascii_digit b = true ∨ b = '_')) :
    ∀ (N : Nat) (s : LexState), pre.length - s.current ≤ N →
    s.current ≤ pre.length →
    scan_decimal_digits (pre ++ b :: t2) s = scan_decimal_digits pre s := by
  intro N
  induction N with
  | zero =>
    intro s hN hle
    have hcur : s.current = pre.length := by omega
    rw [scan_decimal_digits_none (l := pre) (List.get?_eq_none.mpr (by omega))]
    rw [scan_decimal_digits_cons (l := pre ++ b :: t2) (c := b)
      (by rw [hcur]; exact get?_append_boundary pre b t2)]
    rw [if_neg hb]
  | succ N ih =>
    intro s hN hle
    cases hget : pre.get? s.current with
    | none =>
      have hge := List.get?_eq_none.mp hget
      have hcur : s.current = pre.length := by omega
      rw [scan_decimal_digits_none (l := pre) hget]
      rw [scan_decimal_digits_cons (l := pre ++ b :: t2) (c := b)
        (by rw [hcur]; exact get?_append_boundary pre b t2)]
      rw [if_neg hb]
    | some c =>
      have hlt := get?_some_lt hget
      have hcs : (pre ++ b :: t2).get? s.current = some c := by
        rw [get?_append_lt hlt]
        exact hget
      rw [scan_decimal_digits_cons hget, scan_decimal_digits_cons hcs]
      split
      · exact ih (step s) (by simp only [step]; omega)
          (by simp only [step]; omega)
      · rfl

theorem scan_fraction_digits_ext {pre : List Char} {b : Char} {t2 : List Char}
    (hb : ¬(rust_is_ascii_digit b = true)) :
    ∀ (N : Nat) (s : LexState), pre.length - s.current ≤ N →
    s.current ≤ pre.length →
    scan_fraction_digits (pre ++ b :: t2) s = scan_fraction_digits pre s := by
  intro N
  induction N with
  | zero =>
    intro s hN hle
    have hcur : s.current = pre.length := by omega
    rw [scan_fraction_digits_none (l := pre) (List.get?_eq_none.mpr (by omega))]
    rw [scan_fraction_digits_cons (l := pre ++ b :: t2) (c := b)
      (by rw [hcur]; exact get?_append_boundary pre b t2)]
    rw [if_neg hb]
  | succ N ih =>
    intro s hN hle
    cases hget : pre.get? s.current with
    | none =>
      have hge := List.get?_eq_none.mp hget
      have hcur : s.current = pre.length := by omega
      rw [scan_fraction_digits_none (l := pre) hget]
      rw [scan_fraction_digits_cons (l := pre ++ b :: t2) (c := b)
        (by rw [hcur]; exact get?_append_boundary pre b t2)]
      rw [if_neg hb]
    | some c =>
      have hlt := get?_some_lt hget
      have hcs : (pre ++ b :: t2).get? s.current = some c := by
        rw [get?_append_lt hlt]
        exact hget
      rw [scan_fraction_digits_cons hget, scan_fraction_digits_cons hcs]
      split
      · exact ih (step s) (by simp only [step]; omega)
          (by simp only [step]; omega)
      · rfl

theorem scan_hex_digits_ext {pre : List Char} {b : Char} {t2 : List Char}
    (hb : ¬(rust_is_ascii_hexdigit b = true ∨ b = '_')) :
    ∀ (N : Nat) (s : LexState), pre.length - s.current ≤ N →
    s.current ≤ pre.length →
    scan_hex_digits (pre ++ b :: t2) s = scan_hex_digits pre s := by
  intro N
  induction N with
  | zero =>
    intro s hN hle
    have hcur : s.current = pre.length := by omega
    rw [scan_hex_digits_none (l := pre) (List.get?_eq_none.mpr (by omega))]
    rw [scan_hex_digits_cons (l := pre ++ b :: t2) (c := b)
      (by rw [hcur]; exact get?_append_boundary pre b t2)]
    rw [if_neg hb]
  | succ N ih =>
    intro s hN hle
    cases hget : pre.get? s.current with
    | none =>
      have hge := List.get?_eq_none.mp hget
      have hcur : s.current = pre.length := by omega
      rw [scan_hex_digits_none (l := pre) hget]
      rw [scan_hex_digits_cons (l := pre ++ b :: t2) (c := b)
        (by rw [hcur]; exact get?_append_boundary pre b t2)]
      rw [if_neg hb]
    | some c =>
      have hlt := get?_some_lt hget
      have hcs : (pre ++ b :: t2).get? s.current = some c := by
        rw [get?_append_lt hlt]
        exact hget
      rw [scan_hex_digits_cons hget, scan_hex_digits_cons hcs]
      split
      · exact ih (step s) (by simp only [step]; omega)
          (by simp only [step]; omega)
      · rfl

theorem scan_bin_digits_ext {pre : List Char} {b : Char} {t2 : List Char}
    (hb : ¬(b = '0' ∨ b = '1' ∨ b = '_')) :
    ∀ (N : Nat) (s : LexState), pre.length - s.current ≤ N →
    s.current ≤ pre.length →
    scan_bin_digits (pre ++ b :: t2) s = scan_bin_digits pre s := by
  intro N
  induction N with
  | zero =>
    intro s hN hle
    have hcur : s.current = pre.length := by omega
    rw [scan_bin_digits_none (l := pre) (List.get?_eq_none.mpr (by omega))]
    rw [scan_bin_digits_cons (l := pre ++ b :: t2) (c := b)
      (by rw [hcur]; exact get?_append_boundary pre b t2)]
    rw [if_neg hb]
  | succ N ih =>
    intro s hN hle
    cases hget : pre.get? s.current with
    | none =>
      have hge := List.get?_eq_none.mp hget
      have hcur : s.current = pre.length := by omega
      rw [scan_bin_digits_none (l := pre) hget]
      rw [scan_bin_digits_cons (l := pre ++ b :: t2) (c := b)
        (by rw [hcur]; exact get?_append_boundary pre b t2)]
      rw [if_neg hb]
    | some c =>
      have hlt := get?_some_lt hget
      have hcs : (pre ++ b :: t2).get? s.current = some c := by
        rw [get?_append_lt hlt]
        exact hget
      rw [scan_bin_digits_cons hget, scan_bin_digits_cons hcs]
      split
      · exact ih (step s) (by simp only [step]; omega)
          (by simp only [step]; omega)
      · rfl

theorem scan_ident_chars_ext {pre : List Char} {b : Char} {t2 : List Char}
    (hb : ¬(rust_is_alphanumeric b = true ∨ b = '_')) :
    ∀ (N : Nat) (s : LexState), pre.length - s.current ≤ N →
    s.current ≤ pre.length →
    scan_ident_chars (pre ++ b :: t2) s = scan_ident_chars pre s := by
  intro N
  induction N with
  | zero =>
    intro s hN hle
    have hcur : s.current = pre.length := by omega
    rw [scan_ident_chars_none (l := pre) (List.get?_eq_none.mpr (by omega))]
    rw [scan_ident_chars_cons (l := pre ++ b :: t2) (c := b)
      (by rw [hcur]; exact get?_append_boundary pre b t2)]
    rw [if_neg hb]
  | succ N ih =>
    intro s hN hle
    cases hget : pre.get? s.current with
    | none =>
      have hge := List.get?_eq_none.mp hget
      have hcur : s.current = pre.length := by omega
      rw [scan_ident_chars_none (l := pre) hget]
      rw [scan_ident_chars_cons (l := pre ++ b :: t2) (c := b)
        (by rw [hcur]; exact get?_append_boundary pre b t2)]
      rw [if_neg hb]
    | some c =>
      have hlt := get?_some_lt hget
      have hcs : (pre ++ b :: t2).get? s.current = some c := by
        rw [get?_append_lt hlt]
        exact hget
      rw [scan_ident_chars_cons hget, scan_ident_chars_cons hcs]
      split
      · exact ih (step s) (by simp only [step]; omega)
          (by simp only [step]; omega)
      · rfl

theorem skip_whitespace_ext {pre suf : List Char} :
    ∀ (N : Nat) (s : LexState), pre.length - s.current ≤ N →
    (skip_whitespace pre s).current < pre.length →
    skip_whitespace (pre ++ suf) s = skip_whitespace pre s := by
  intro N
  induction N with
  | zero =>
    intro s hN h
    rw [skip_whitespace_none (List.get?_eq_none.mpr (by omega))] at h
    omega
  | succ N ih =>
    intro s hN h
    cases hget : pre.get? s.current with
    | none =>
      rw [skip_whitespace_none hget] at h
      have := List.get?_eq_none.mp hget
      omega
    | some c =>
      have hlt := get?_some_lt hget
      have hcs : (pre ++ suf).get? s.current = some c := by
        rw [get?_append_lt hlt]
        exact hget
      rw [skip_whitespace_cons hget] at h ⊢
      rw [skip_whitespace_cons hcs]
      split
      · rename_i hws
        rw [if_pos hws] at h
        exact ih (step (newline_adjust c s))
          (by simp only [step, newline_adjust_current]; omega) h
      · rfl
theorem getD_eq_get? (l : List Char) (n : Nat) (d : Char) :
    l.getD n d = (l.get? n).getD d := by
  simp [List.getD]

theorem peek_ext_lt {pre suf : List Char} {s : LexState}
    (h : s.current < pre.length) : peek (pre ++ suf) s = peek pre s := by
  unfold peek
  rw [getD_eq_get?, getD_eq_get?, get?_append_lt h]

theorem peek_at_end_pre {pre : List Char} {s : LexState}
    (h : pre.length ≤ s.current) : peek pre s = '\x00' := by
  unfold peek
  rw [getD_eq_get?, List.get?_eq_none.mpr h]
  rfl

theorem peek_boundary {pre : List Char} {b : Char} {t2 : List Char}
    {s : LexState} (h : s.current = pre.length) :
    peek (pre ++ b :: t2) s = b := by
  unfold peek
  rw [getD_eq_get?, h, get?_append_boundary]
  rfl

theorem peek_next_ext_lt {pre suf : List Char} {s : LexState}
    (h : s.current + 1 < pre.length) :
    peek_next (pre ++ suf) s = peek_next pre s := by
  unfold peek_next
  rw [getD_eq_get?, getD_eq_get?, get?_append_lt h]

theorem peek_next_at_end_pre {pre : List Char} {s : LexState}
    (h : pre.length ≤ s.current + 1) : peek_next pre s = '\x00' := by
  unfold peek_next
  rw [getD_eq_get?, List.get?_eq_none.mpr h]
  rfl

theorem peek_next_boundary {pre : List Char} {b : Char} {t2 : List Char}
    {s : LexState} (h : s.current + 1 = pre.length) :
    peek_next (pre ++ b :: t2) s = b := by
  unfold peek_next
  rw [getD_eq_get?, h, get?_append_boundary]
  rfl

theorem match_char_ext {pre : List Char} {b : Char} {t2 : List Char}
    {e : Char} {s : LexState} (hle : s.current ≤ pre.length)
    (hbe : s.current = pre.length → b ≠ e) :
    match_char (pre ++ b :: t2) e s = match_char pre e s := by
  rcases Nat.lt_or_ge s.current pre.length with hlt | hge
  · unfold match_char
    rw [get?_append_lt hlt]
  · have hcur : s.current = pre.length := by omega
    unfold match_char
    rw [show pre.get? s.current = none from List.get?_eq_none.mpr (by omega)]
    rw [hcur, get?_append_boundary]
    dsimp only []
    rw [if_neg (hbe hcur)]

theorem slice_ext {pre suf : List Char} {a bnd : Nat}
    (ha : a ≤ bnd) (hb : bnd ≤ pre.length) :
    slice (pre ++ suf) a bnd = slice pre a bnd := by
  unfold slice
  congr 1
  rw [← List.drop_take bnd a (pre ++ suf), ← List.drop_take bnd a pre]
  rw [List.take_append_of_le_length hb]
theorem scan_string_ext {pre suf : List Char} (s : LexState) (v : String)
    {t : TokenType} {s' : LexState}
    (h : scan_string pre s v = .ok (t, s')) :
    scan_string (pre ++ suf) s v = .ok (t, s') := by
  induction s, v using scan_string.induct pre with
  | case1 s v hget =>
    rw [scan_string, hget] at h
    cases h
  | case2 s v hget =>
    rw [scan_string, hget] at h
    simp only [if_pos rfl] at h
    rw [scan_string, get?_append_lt (get?_some_lt hget), hget]
    simp only [if_pos rfl]
    exact h
  | case3 s v hnext hget hne =>
    rw [scan_string, hget] at h
    simp only [if_neg hne, if_pos rfl, hnext, ite_true] at h
    cases h
  | case4 s v e hnext c hesc hget hne ih =>
    rw [scan_string, hget] at h
    simp only [if_neg hne, if_pos rfl, hnext, hesc] at h
    rw [scan_string, get?_append_lt (get?_some_lt hget), hget]
    simp only [if_neg hne, if_pos rfl,
      get?_append_lt (get?_some_lt hnext), hnext, hesc]
    exact ih h
  | case5 s v e hnext hesc hget hne =>
    rw [scan_string, hget] at h
    simp only [if_neg hne, if_pos rfl, hnext, hesc, ite_true] at h
    cases h
  | case6 s v hget hne1 hne2 ih =>
    rw [scan_string, hget] at h
    simp only [if_neg hne1, if_neg hne2, if_pos rfl] at h
    rw [scan_string, get?_append_lt (get?_some_lt hget), hget]
    simp only [if_neg hne1, if_neg hne2, if_pos rfl]
    exact ih h
  | case7 s v c hget hne1 hne2 hne3 ih =>
    rw [scan_string, hget] at h
    simp only [if_neg hne1, if_neg hne2, if_neg hne3] at h
    rw [scan_string, get?_append_lt (get?_some_lt hget), hget]
    simp only [if_neg hne1, if_neg hne2, if_neg hne3]
    exact ih h

theorem finish_char_ext {pre suf : List Char} {s : LexState} {c : Char}
    {t : TokenType} {s' : LexState}
    (h : finish_char pre s c = .ok (t, s')) :
    finish_char (pre ++ suf) s c = .ok (t, s') := by
  unfold finish_char at h ⊢
  split at h
  · rename_i hpk
    have hlt := peek_ne_null_lt hpk (by decide)
    rw [if_pos (by rw [peek_ext_lt hlt]; exact hpk)]
    exact h
  · cases h

theorem scan_char_ext {pre suf : List Char} {s : LexState}
    {t : TokenType} {s' : LexState}
    (h : scan_char pre s = .ok (t, s')) :
    scan_char (pre ++ suf) s = .ok (t, s') := by
  unfold scan_char at h ⊢
  split at h
  · cases h
  · rename_i hend
    rw [if_neg (by rw [List.length_append]; omega)]
    split at h
    · cases h
    · rename_i c0 hget
      rw [get?_append_lt (get?_some_lt hget), hget]
      dsimp only []
      split at h
      · rename_i hbs
        rw [if_pos hbs]
        split at h
        · cases h
        · rename_i e hnext
          rw [get?_append_lt (get?_some_lt hnext), hnext]
          dsimp only []
          split at h
          · rename_i ec hesc
            exact finish_char_ext h
          · cases h
      · rename_i hbs
        rw [if_neg hbs]
        exact finish_char_ext h
theorem scan_identifier_ext {pre : List Char} {b : Char} {t2 : List Char}
    {s : LexState} {t : TokenType} {s' : LexState}
    (hbm : b = ' ' ∨ b = '\t' ∨ b = '\r' ∨ b = '\n' ∨ b = '/')
    (hle : s.current ≤ pre.length) (hstart : s.start ≤ s.current)
    (h : scan_identifier pre s = .ok (t, s')) :
    scan_identifier (pre ++ b :: t2) s = .ok (t, s') := by
  have halnum : ¬(rust_is_alphanumeric b = true ∨ b = '_') := by
    rcases hbm with rfl | rfl | rfl | rfl | rfl <;> decide
  have hb := scan_ident_chars_bounds pre s
  simp only [scan_identifier] at h ⊢
  rw [scan_ident_chars_ext halnum pre.length s (by omega) hle]
  rw [slice_ext (by omega) (by omega)]
  exact h

theorem scan_number_ext {pre : List Char} {b : Char} {t2 : List Char}
    {c : Char} {s : LexState} {t : TokenType} {s' : LexState}
    (hbm : b = ' ' ∨ b = '\t' ∨ b = '\r' ∨ b = '\n' ∨ b = '/')
    (hle : s.current ≤ pre.length) (hstart : s.start ≤ s.current)
    (h : scan_number pre c s = .ok (t, s')) :
    scan_number (pre ++ b :: t2) c s = .ok (t, s') := by
  have hbd : rust_is_ascii_digit b = false := by
    rcases hbm with rfl | rfl | rfl | rfl | rfl <;> rfl
  have hbhex : ¬(rust_is_ascii_hexdigit b = true ∨ b = '_') := by
    rcases hbm with rfl | rfl | rfl | rfl | rfl <;> decide
  have hbdig : ¬(rust_is_ascii_digit b = true ∨ b = '_') := by
    rcases hbm with rfl | rfl | rfl | rfl | rfl <;> decide
  have hbbin : ¬(b = '0' ∨ b = '1' ∨ b = '_') := by
    rcases hbm with rfl | rfl | rfl | rfl | rfl <;> decide
  have hbx : b ≠ 'x' := by rcases hbm with rfl | rfl | rfl | rfl | rfl <;> decide
  have hbX : b ≠ 'X' := by rcases hbm with rfl | rfl | rfl | rfl | rfl <;> decide
  have hbb : b ≠ 'b' := by rcases hbm with rfl | rfl | rfl | rfl | rfl <;> decide
  have hbdot : b ≠ '.' := by
    rcases hbm with rfl | rfl | rfl | rfl | rfl <;> decide
  have hc1 : (c = '0' ∧
      (peek (pre ++ b :: t2) s = 'x' ∨ peek (pre ++ b :: t2) s = 'X')) ↔
      (c = '0' ∧ (peek pre s = 'x' ∨ peek pre s = 'X')) := by
    rcases Nat.lt_or_ge s.current pre.length with hlt | hge
    · rw [peek_ext_lt hlt]
    · have hcur : s.current = pre.length := by omega
      rw [peek_boundary hcur, peek_at_end_pre (by omega)]
      constructor
      · rintro ⟨h1, h2 | h2⟩
        · exact absurd h2 hbx
        · exact absurd h2 hbX
      · rintro ⟨h1, h2 | h2⟩
        · exact absurd h2 (by decide)
        · exact absurd h2 (by decide)
  have hc2 : (c = '0' ∧ peek (pre ++ b :: t2) s = 'b') ↔
      (c = '0' ∧ peek pre s = 'b') := by
    rcases Nat.lt_or_ge s.current pre.length with hlt | hge
    · rw [peek_ext_lt hlt]
    · have hcur : s.current = pre.length := by omega
      rw [peek_boundary hcur, peek_at_end_pre (by omega)]
      constructor
      · rintro ⟨h1, h2⟩
        exact absurd h2 hbb
      · rintro ⟨h1, h2⟩
        exact absurd h2 (by decide)
  simp only [scan_number] at h ⊢
  by_cases hC1 : c = '0' ∧ (peek pre s = 'x' ∨ peek pre s = 'X')
  · rw [if_pos hC1] at h
    rw [if_pos (hc1.mpr hC1)]
    have hslt : s.current < pre.length := by
      rcases hC1.2 with h2 | h2
      · exact peek_ne_null_lt h2 (by decide)
      · exact peek_ne_null_lt h2 (by decide)
    have hbnd := scan_hex_digits_bounds pre (step s)
    have hstep : (step s).current = s.current + 1 := rfl
    rw [scan_hex_digits_ext hbhex pre.length (step s)
      (by simp only [step]; omega) (by simp only [step]; omega)]
    rw [slice_ext (by omega) (by omega)]
    exact h
  · rw [if_neg hC1] at h
    rw [if_neg (by rw [hc1]; exact hC1)]
    by_cases hC2 : c = '0' ∧ peek pre s = 'b'
    · rw [if_pos hC2] at h
      rw [if_pos (hc2.mpr hC2)]
      have hslt : s.current < pre.length := peek_ne_null_lt hC2.2 (by decide)
      have hbnd := scan_bin_digits_bounds pre (step s)
      have hstep : (step s).current = s.current + 1 := rfl
      rw [scan_bin_digits_ext hbbin pre.length (step s)
        (by simp only [step]; omega) (by simp only [step]; omega)]
      rw [slice_ext (by omega) (by omega)]
      exact h
    · rw [if_neg hC2] at h
      rw [if_neg (by rw [hc2]; exact hC2)]
      have hbnd := scan_decimal_digits_bounds pre s
      rw [scan_decimal_digits_ext hbdig pre.length s (by omega) hle]
      have hc3 : (peek (pre ++ b :: t2) (scan_decimal_digits pre s) = '.' ∧
          rust_is_ascii_digit
            (peek_next (pre ++ b :: t2) (scan_decimal_digits pre s)) = true) ↔
          (peek pre (scan_decimal_digits pre s) = '.' ∧
          rust_is_ascii_digit
            (peek_next pre (scan_decimal_digits pre s)) = true) := by
        rcases Nat.lt_or_ge (scan_decimal_digits pre s).current pre.length
          with hlt | hge
        · rw [peek_ext_lt hlt]
          rcases Nat.lt_or_ge ((scan_decimal_digits pre s).current + 1)
            pre.length with hlt2 | hge2
          · rw [peek_next_ext_lt hlt2]
          · have hcur2 : (scan_decimal_digits pre s).current + 1 = pre.length :=
              by omega
            rw [peek_next_boundary hcur2, peek_next_at_end_pre (by omega)]
            rw [hbd]
            constructor
            · rintro ⟨h1, h2⟩
              cases h2
            · rintro ⟨h1, h2⟩
              exact absurd h2 (by decide)
        · have hcur : (scan_decimal_digits pre s).current = pre.length := by
            omega
          rw [peek_boundary hcur, peek_at_end_pre (by omega)]
          constructor
          · rintro ⟨h1, h2⟩
            exact absurd h1 hbdot
          · rintro ⟨h1, h2⟩
            exact absurd h1 (by decide)
      by_cases hC3 : peek pre (scan_decimal_digits pre s) = '.' ∧
          rust_is_ascii_digit (peek_next pre (scan_decimal_digits pre s)) = true
      · rw [if_pos hC3] at h
        rw [if_pos (hc3.mpr hC3)]
        have hslt : (scan_decimal_digits pre s).current < pre.length :=
          peek_ne_null_lt hC3.1 (by decide)
        have hbnd2 := scan_fraction_digits_bounds pre
          (step (scan_decimal_digits pre s))
        have hstep : (step (scan_decimal_digits pre s)).current =
            (scan_decimal_digits pre s).current + 1 := rfl
        rw [scan_fraction_digits_ext (by rw [hbd]; simp) pre.length
          (step (scan_decimal_digits pre s))
          (by simp only [step]; omega) (by simp only [step]; omega)]
        rw [slice_ext (by omega) (by omega)]
        exact h
      · rw [if_neg hC3] at h
        rw [if_neg (by rw [hc3]; exact hC3)]
        rw [slice_ext (by omega) (by omega)]
        exact h
theorem match_char_true_get {cs : List Char} {e : Char} {s : LexState}
    (h : (match_char cs e s).1 = true) : cs.get? s.current = some e := by
  unfold match_char at h
  split at h
  · rename_i c heq
    split at h
    · rename_i hce
      rw [hce] at heq
      exact heq
    · cases h
  · cases h

theorem peek_eq_lit_iff {pre : List Char} {b : Char} {t2 : List Char}
    {s : LexState} {e : Char} (hle : s.current ≤ pre.length)
    (he : e ≠ '\x00') (heb : b ≠ e) :
    (peek (pre ++ b :: t2) s = e) ↔ (peek pre s = e) := by
  rcases Nat.lt_or_ge s.current pre.length with hlt | hge
  · rw [peek_ext_lt hlt]
  · have hcur : s.current = pre.length := by omega
    rw [peek_boundary hcur, peek_at_end_pre (by omega)]
    constructor
    · intro hx
      exact absurd hx heb
    · intro hx
      exact absurd hx.symm he

theorem peek_next_eq_lit_iff {pre : List Char} {b : Char} {t2 : List Char}
    {s : LexState} {e : Char} (hle : s.current + 1 ≤ pre.length)
    (he : e ≠ '\x00') (heb : b ≠ e) :
    (peek_next (pre ++ b :: t2) s = e) ↔ (peek_next pre s = e) := by
  rcases Nat.lt_or_ge (s.current + 1) pre.length with hlt | hge
  · rw [peek_next_ext_lt hlt]
  · have hcur : s.current + 1 = pre.length := by omega
    rw [peek_next_boundary hcur, peek_next_at_end_pre (by omega)]
    constructor
    · intro hx
      exact absurd hx heb
    · intro hx
      exact absurd hx.symm he
theorem scan_token_ext {pre : List Char} {b : Char} {t2 : List Char}
    {s : LexState} {r : Option TokenType} {s' : LexState}
    (hbm : b = ' ' ∨ b = '\t' ∨ b = '\r' ∨ b = '\n' ∨ b = '/')
    (hncs : no_comment_start pre = true)
    (hseam : ¬(pre.getLast? = some '/' ∧ (b = '/' ∨ b = '*')))
    (hlt : s.current < pre.length) (hstart : s.start ≤ s.current)
    (h : scan_token pre s = .ok (r, s')) :
    scan_token (pre ++ b :: t2) s = .ok (r, s') := by
  have hble : (step s).current ≤ pre.length := by simp only [step]; omega
  rw [scan_token] at h ⊢
  cases hget : pre.get? s.current with
  | none =>
    have := List.get?_eq_none.mp hget
    omega
  | some c =>
    have hadv : advance pre s = some (c, step s) := by
      unfold advance
      rw [hget]
    have hadvcs : advance (pre ++ b :: t2) s = some (c, step s) := by
      unfold advance
      rw [get?_append_lt hlt, hget]
    rw [hadv] at h
    rw [hadvcs]
    dsimp only [] at h ⊢
    split at h
    · try dsimp only []
      rw [wrap_eq_ok] at h ⊢
      obtain ⟨t0, hX, hr⟩ := h
      exact ⟨t0, scan_string_ext (step s) "" hX, hr⟩
    · try dsimp only []
      rw [wrap_eq_ok] at h ⊢
      obtain ⟨t0, hX, hr⟩ := h
      exact ⟨t0, scan_char_ext hX, hr⟩
    · try dsimp only []
      exact h
    · try dsimp only []
      exact h
    · try dsimp only []
      exact h
    · try dsimp only []
      exact h
    · try dsimp only []
      exact h
    · try dsimp only []
      exact h
    · try dsimp only []
      exact h
    · try dsimp only []
      by_cases hp : peek pre (step s) = '.'
      · have hplt := peek_ne_null_lt hp (by decide)
        rw [if_pos hp] at h
        rw [if_pos ((peek_eq_lit_iff hble (by decide) (by rcases hbm with rfl | rfl | rfl | rfl | rfl <;> decide)).mpr hp)]
        by_cases hq : peek_next pre (step s) = '.'
        · rw [if_pos hq] at h
          rw [if_pos ((peek_next_eq_lit_iff (by omega) (by decide) (by rcases hbm with rfl | rfl | rfl | rfl | rfl <;> decide)).mpr hq)]
          exact h
        · rw [if_neg hq] at h
          rw [if_neg (fun hx => hq
            ((peek_next_eq_lit_iff (by omega) (by decide) (by rcases hbm with rfl | rfl | rfl | rfl | rfl <;> decide)).mp hx))]
          by_cases hq2 : peek_next pre (step s) = '='
          · rw [if_pos hq2] at h
            rw [if_pos ((peek_next_eq_lit_iff (by omega) (by decide) (by rcases hbm with rfl | rfl | rfl | rfl | rfl <;> decide)).mpr hq2)]
            exact h
          · rw [if_neg hq2] at h
            rw [if_neg (fun hx => hq2
              ((peek_next_eq_lit_iff (by omega) (by decide) (by rcases hbm with rfl | rfl | rfl | rfl | rfl <;> decide)).mp hx))]
            exact h
      · rw [if_neg hp] at h
        rw [if_neg (fun hx => hp
          ((peek_eq_lit_iff hble (by decide) (by rcases hbm with rfl | rfl | rfl | rfl | rfl <;> decide)).mp hx))]
        exact h
    · try dsimp only []
      rw [match_char_ext (e := ':') hble (fun _ => (by rcases hbm with rfl | rfl | rfl | rfl | rfl <;> decide))]
      exact h
    · try dsimp only []
      rw [match_char_ext (e := '&') hble (fun _ => (by rcases hbm with rfl | rfl | rfl | rfl | rfl <;> decide))]
      rw [match_char_ext (e := '=') hble (fun _ => (by rcases hbm with rfl | rfl | rfl | rfl | rfl <;> decide))]
      exact h
    · try dsimp only []
      rw [match_char_ext (e := '|') hble (fun _ => (by rcases hbm with rfl | rfl | rfl | rfl | rfl <;> decide))]
      rw [match_char_ext (e := '=') hble (fun _ => (by rcases hbm with rfl | rfl | rfl | rfl | rfl <;> decide))]
      exact h
    · try dsimp only []
      rw [match_char_ext (e := '=') hble (fun _ => (by rcases hbm with rfl | rfl | rfl | rfl | rfl <;> decide))]
      exact h
    · try dsimp only []
      exact h
    · try dsimp only []
      exact h
    · try dsimp only []
      rw [match_char_ext (e := '=') hble (fun _ => (by rcases hbm with rfl | rfl | rfl | rfl | rfl <;> decide))]
      rw [match_char_ext (e := '+') hble (fun _ => (by rcases hbm with rfl | rfl | rfl | rfl | rfl <;> decide))]
      exact h
    · try dsimp only []
      rw [match_char_ext (e := '=') hble (fun _ => (by rcases hbm with rfl | rfl | rfl | rfl | rfl <;> decide))]
      rw [match_char_ext (e := '-') hble (fun _ => (by rcases hbm with rfl | rfl | rfl | rfl | rfl <;> decide))]
      rw [match_char_ext (e := '>') hble (fun _ => (by rcases hbm with rfl | rfl | rfl | rfl | rfl <;> decide))]
      exact h
    · try dsimp only []
      rw [match_char_ext (e := '=') hble (fun _ => (by rcases hbm with rfl | rfl | rfl | rfl | rfl <;> decide))]
      exact h
    · try dsimp only []
      have hsl : (match_char pre '/' (step s)).1 = false := by
        cases hm : (match_char pre '/' (step s)).1
        · rfl
        · have hg2 := match_char_true_get hm
          exact absurd rfl (no_comment_start_pair hncs hget hg2).1
      have hsb : (match_char pre '*' (step s)).1 = false := by
        cases hm : (match_char pre '*' (step s)).1
        · rfl
        · have hg2 := match_char_true_get hm
          exact absurd rfl (no_comment_start_pair hncs hget hg2).2
      have hsl' : ¬((match_char pre '/' (step s)).1 = true) := by
        rw [hsl]
        decide
      have hsb' : ¬((match_char pre '*' (step s)).1 = true) := by
        rw [hsb]
        decide
      have hlastp : (step s).current = pre.length → pre.getLast? = some '/' := by
        intro hcur
        rw [List.getLast?_eq_get?]
        have hc2 : pre.length - 1 = s.current := by
          simp only [step] at hcur
          omega
        rw [hc2]
        exact hget
      have hmc1 : match_char (pre ++ b :: t2) '/' (step s) =
          match_char pre '/' (step s) := by
        refine match_char_ext hble (fun hcur hbe => ?_)
        exact hseam ⟨hlastp hcur, Or.inl hbe⟩
      have hmc2 : match_char (pre ++ b :: t2) '*' (step s) =
          match_char pre '*' (step s) := by
        refine match_char_ext hble (fun hcur hbe => ?_)
        exact hseam ⟨hlastp hcur, Or.inr hbe⟩
      have hmc3 : match_char (pre ++ b :: t2) '=' (step s) =
          match_char pre '=' (step s) :=
        match_char_ext hble
          (fun _ => by rcases hbm with rfl | rfl | rfl | rfl | rfl <;> decide)
      rw [hmc1, hmc2, hmc3]
      rw [if_neg hsl', if_neg hsb'] at h ⊢
      exact h
    · try dsimp only []
      rw [match_char_ext (e := '=') hble (fun _ => (by rcases hbm with rfl | rfl | rfl | rfl | rfl <;> decide))]
      exact h
    · try dsimp only []
      rw [match_char_ext (e := '=') hble (fun _ => (by rcases hbm with rfl | rfl | rfl | rfl | rfl <;> decide))]
      rw [match_char_ext (e := '>') hble (fun _ => (by rcases hbm with rfl | rfl | rfl | rfl | rfl <;> decide))]
      exact h
    · try dsimp only []
      rw [match_char_ext (e := '=') hble (fun _ => (by rcases hbm with rfl | rfl | rfl | rfl | rfl <;> decide))]
      exact h
    · try dsimp only []
      have hiff : (peek (pre ++ b :: t2) (step s) = '<' ∧
          peek_next (pre ++ b :: t2) (step s) = '=') ↔
          (peek pre (step s) = '<' ∧ peek_next pre (step s) = '=') := by
        rcases Nat.lt_or_ge (step s).current pre.length with hlt2 | hge2
        · rw [peek_ext_lt hlt2,
            peek_next_eq_lit_iff (by omega) (by decide) (by rcases hbm with rfl | rfl | rfl | rfl | rfl <;> decide)]
        · have hcur : (step s).current = pre.length := by omega
          rw [peek_boundary hcur, peek_at_end_pre (by omega)]
          constructor
          · rintro ⟨h1, h2⟩
            exact absurd h1 (by rcases hbm with rfl | rfl | rfl | rfl | rfl <;> decide)
          · rintro ⟨h1, h2⟩
            exact absurd h1 (by decide)
      by_cases hpq : peek pre (step s) = '<' ∧ peek_next pre (step s) = '='
      · rw [if_pos hpq] at h
        rw [if_pos (hiff.mpr hpq)]
        exact h
      · rw [if_neg hpq] at h
        rw [if_neg (fun hx => hpq (hiff.mp hx))]
        rw [match_char_ext (e := '<') hble (fun _ => (by rcases hbm with rfl | rfl | rfl | rfl | rfl <;> decide))]
        rw [match_char_ext (e := '=') hble (fun _ => (by rcases hbm with rfl | rfl | rfl | rfl | rfl <;> decide))]
        exact h
    · try dsimp only []
      have hiff : (peek (pre ++ b :: t2) (step s) = '>' ∧
          peek_next (pre ++ b :: t2) (step s) = '=') ↔
          (peek pre (step s) = '>' ∧ peek_next pre (step s) = '=') := by
        rcases Nat.lt_or_ge (step s).current pre.length with hlt2 | hge2
        · rw [peek_ext_lt hlt2,
            peek_next_eq_lit_iff (by omega) (by decide) (by rcases hbm with rfl | rfl | rfl | rfl | rfl <;> decide)]
        · have hcur : (step s).current = pre.length := by omega
          rw [peek_boundary hcur, peek_at_end_pre (by omega)]
          constructor
          · rintro ⟨h1, h2⟩
            exact absurd h1 (by rcases hbm with rfl | rfl | rfl | rfl | rfl <;> decide)
          · rintro ⟨h1, h2⟩
            exact absurd h1 (by decide)
      by_cases hpq : peek pre (step s) = '>' ∧ peek_next pre (step s) = '='
      · rw [if_pos hpq] at h
        rw [if_pos (hiff.mpr hpq)]
        exact h
      · rw [if_neg hpq] at h
        rw [if_neg (fun hx => hpq (hiff.mp hx))]
        rw [match_char_ext (e := '>') hble (fun _ => (by rcases hbm with rfl | rfl | rfl | rfl | rfl <;> decide))]
        rw [match_char_ext (e := '=') hble (fun _ => (by rcases hbm with rfl | rfl | rfl | rfl | rfl <;> decide))]
        exact h
    · try dsimp only []
      exact h
    · try dsimp only []
      split at h
      · rename_i hd
        rw [if_pos hd]
        rw [wrap_eq_ok] at h ⊢
        obtain ⟨t0, hX, hr⟩ := h
        exact ⟨t0, scan_number_ext hbm hble (by simp only [step]; omega) hX, hr⟩
      · rename_i hd
        rw [if_neg hd]
        split at h
        · rename_i ha
          rw [if_pos ha]
          rw [wrap_eq_ok] at h ⊢
          obtain ⟨t0, hX, hr⟩ := h
          exact ⟨t0, scan_identifier_ext hbm hble
            (by simp only [step]; omega) hX, hr⟩
        · rename_i ha
          rw [if_neg ha]
          exact h
theorem scan_token_panic_at_end {cs : List Char} {s : LexState}
    (h : cs.length ≤ s.current) : scan_token cs s = .panic := by
  rw [scan_token]
  unfold advance
  rw [List.get?_eq_none.mpr h]

theorem no_comment_start_append_single : ∀ {l : List Char} {x : Char},
    no_comment_start (l ++ [x]) = true → no_comment_start l = true := by
  intro l
  induction l with
  | nil =>
    intro x _
    rfl
  | cons a rest ih =>
    intro x h
    match rest with
    | [] => rfl
    | b :: rest2 =>
      rw [List.cons_append, List.cons_append] at h
      unfold no_comment_start at h ⊢
      rw [Bool.and_eq_true] at h ⊢
      exact ⟨h.1, ih h.2⟩

theorem skip_block_comment_no_close {cs : List Char} :
    ∀ (N : Nat) (s : LexState), cs.length - s.current ≤ N →
    s.current ≤ cs.length →
    (∀ j, s.current ≤ j →
      ¬(cs.get? j = some '*' ∧ cs.get? (j + 1) = some '/')) →
    (skip_block_comment cs s).current = cs.length := by
  intro N
  induction N with
  | zero =>
    intro s hN hle hpair
    rw [skip_block_comment_none (List.get?_eq_none.mpr (by omega))]
    omega
  | succ N ih =>
    intro s hN hle hpair
    cases hget : cs.get? s.current with
    | none =>
      rw [skip_block_comment_none hget]
      have := List.get?_eq_none.mp hget
      omega
    | some c =>
      have hlt := get?_some_lt hget
      rw [skip_block_comment_cons hget]
      rw [if_neg]
      · exact ih (step (newline_adjust c s))
          (by simp only [step, newline_adjust_current]; omega)
          (by simp only [step, newline_adjust_current]; omega)
          (by
            intro j hj
            exact hpair j (by simp only [step, newline_adjust_current] at hj
                              omega))
      · rintro ⟨hc, hpk⟩
        subst hc
        have hlt2 := peek_next_ne_null_lt hpk (by decide)
        refine hpair s.current (Nat.le_refl _) ⟨hget, ?_⟩
        unfold peek_next at hpk
        rw [getD_eq_get?] at hpk
        cases hg2 : cs.get? (s.current + 1) with
        | none =>
          rw [hg2] at hpk
          cases hpk
        | some d =>
          rw [hg2] at hpk
          simp only [Option.getD_some] at hpk
          rw [hpk]
theorem tokenize_loop_ws_boundary {pre : List Char} {w : Char}
    (hw : w = ' ' ∨ w = '\r' ∨ w = '\t' ∨ w = '\n')
    (s : LexState) (hcur : s.current = pre.length) :
    tokenize_loop (pre ++ [w]) s = .panic := by
  rw [tokenize_loop.eq_def]
  rw [dif_neg (by rw [List.length_append]; simp; omega)]
  have hg : (pre ++ [w]).get? s.current = some w := by
    rw [hcur]
    exact get?_append_boundary pre w []
  have hsw : skip_whitespace (pre ++ [w]) s = step (newline_adjust w s) := by
    rw [skip_whitespace_cons hg, if_pos hw]
    exact skip_whitespace_none (List.get?_eq_none.mpr
      (by simp [step, newline_adjust_current, List.length_append]; omega))
  dsimp only []
  rw [hsw]
  rw [scan_token_panic_at_end
    (by simp [step, newline_adjust_current, List.length_append]; omega)]

theorem tokenize_loop_trailing_ws {pre : List Char} {w : Char}
    (hw : w = ' ' ∨ w = '\r' ∨ w = '\t' ∨ w = '\n')
    (hncs : no_comment_start pre = true) :
    ∀ (N : Nat) (s : LexState) (ts : List Token),
      pre.length - s.current ≤ N → s.current ≤ pre.length →
      tokenize_loop pre s = .ok ts →
      tokenize_loop (pre ++ [w]) s = .panic := by
  have hbm : w = ' ' ∨ w = '\t' ∨ w = '\r' ∨ w = '\n' ∨ w = '/' := by
    rcases hw with rfl | rfl | rfl | rfl
    · exact Or.inl rfl
    · exact Or.inr (Or.inr (Or.inl rfl))
    · exact Or.inr (Or.inl rfl)
    · exact Or.inr (Or.inr (Or.inr (Or.inl rfl)))
  have hseam : ¬(pre.getLast? = some '/' ∧ (w = '/' ∨ w = '*')) := by
    rintro ⟨h1, h2 | h2⟩ <;> rcases hw with rfl | rfl | rfl | rfl <;> cases h2
  intro N
  induction N with
  | zero =>
    intro s ts hN hle h
    exact tokenize_loop_ws_boundary hw s (by omega)
  | succ N ih =>
    intro s ts hN hle h
    by_cases hend : pre.length ≤ s.current
    · exact tokenize_loop_ws_boundary hw s (by omega)
    · rw [tokenize_loop.eq_def, dif_neg hend] at h
      dsimp only [] at h
      have hwb := (skip_whitespace_bounds pre s).2
      have hwb1 := (skip_whitespace_bounds pre s).1
      by_cases hs0 : (skip_whitespace pre s).current < pre.length
      · rw [tokenize_loop.eq_def,
          dif_neg (by rw [List.length_append]; simp; omega)]
        dsimp only []
        rw [skip_whitespace_ext pre.length s (by omega) hs0]
        split at h
        · cases h
        · cases h
        · rename_i s2 heq
          have hspec := scan_token_spec heq
          rw [scan_token_ext hbm hncs hseam (by simp only []; omega)
            (Nat.le_refl _) heq]
          exact ih s2 ts (by simp only [] at hspec; omega)
            (by simp only [] at hspec; omega) h
        · rename_i tt s2 heq
          have hspec := scan_token_spec heq
          rw [scan_token_ext hbm hncs hseam (by simp only []; omega)
            (Nat.le_refl _) heq]
          dsimp only []
          split at h
          · rename_i rest hrest
            rw [ih s2 rest (by simp only [] at hspec; omega)
              (by simp only [] at hspec; omega) hrest]
          · cases h
          · cases h
      · have hs0c : (skip_whitespace pre s).current = pre.length := by omega
        rw [scan_token_panic_at_end (by simp only []; omega)] at h
        cases h

/-- **C6 (amended).** For every source text that ends in a whitespace
character, contains no `//` or `/*` sequence, and whose content before
the final character tokenizes without error, `tokenize` panics with an
out-of-bounds index (the main loop calls `scan_token` after
`skip_whitespace` has consumed the remaining input, and `advance`
indexes past the end of the character buffer). -/
theorem tokenize_trailing_ws_panics (pre : List Char) (w : Char)
    (hw : w = ' ' ∨ w = '\r' ∨ w = '\t' ∨ w = '\n')
    (hncs : no_comment_start (pre ++ [w]) = true)
    (hok : ∃ ts, tokenize pre = .ok ts) :
    tokenize (pre ++ [w]) = .panic := by
  obtain ⟨ts, hts⟩ := hok
  exact tokenize_loop_trailing_ws hw (no_comment_start_append_single hncs)
    pre.length _ ts (Nat.sub_le _ _) (Nat.zero_le _) hts

/-- Witness for **C6 (amended)** at the concrete text `"a "`. -/
theorem tokenize_trailing_ws_panics_witness :
    tokenize ("a".data ++ [' ']) = .panic :=
  tokenize_trailing_ws_panics "a".data ' ' (Or.inl rfl) rfl ⟨_, rfl⟩

/-- **C6 (counterexample).** The original claim quantified over *every*
text ending in whitespace whose earlier content lexes without error;
`"// "` is such a text (`"//"` tokenizes to `Ok`), yet `tokenize`
returns `Ok` — the line-comment loop, not `skip_whitespace`, consumes
the trailing space — so no panic occurs. -/
theorem tokenize_trailing_ws_counterexample :
    tokenize "//".data = .ok [{ token_type := .Eof, lexeme := "", line := 1,
                                column := 3 }] ∧
    tokenize ("//".data ++ [' ']) =
      .ok [{ token_type := .Eof, lexeme := "", line := 1, column := 4 }] :=
  ⟨rfl, rfl⟩
theorem tokenize_loop_block_boundary {pre rest2 : List Char}
    (hnbc : no_block_close rest2 = true)
    (s : LexState) (hcur : s.current = pre.length) :
    ∃ ts2, tokenize_loop (pre ++ '/' :: '*' :: rest2) s = .ok ts2 := by
  have hlen : (pre ++ '/' :: '*' :: rest2).length =
      pre.length + 2 + rest2.length := by
    rw [List.length_append]
    simp
    omega
  rw [tokenize_loop.eq_def]
  rw [dif_neg (by omega)]
  have hg : (pre ++ '/' :: '*' :: rest2).get? s.current = some '/' := by
    rw [hcur]
    exact get?_append_boundary pre '/' ('*' :: rest2)
  have hg1 : (pre ++ '/' :: '*' :: rest2).get? (s.current + 1) = some '*' := by
    rw [hcur, List.get?_append_right (by omega)]
    rw [show pre.length + 1 - pre.length = 1 from by omega]
    rfl
  have hsw : skip_whitespace (pre ++ '/' :: '*' :: rest2) s = s := by
    rw [skip_whitespace_cons hg, if_neg (by decide)]
  dsimp only []
  rw [hsw]
  have hstep : (step { s with start := s.current }).current = s.current + 1 :=
    rfl
  have hscan : scan_token (pre ++ '/' :: '*' :: rest2)
      { s with start := s.current } =
      .ok (none, skip_block_comment (pre ++ '/' :: '*' :: rest2)
        (step (step { s with start := s.current }))) := by
    have hm1 : match_char (pre ++ '/' :: '*' :: rest2) '/'
        (step { s with start := s.current }) =
        (false, step { s with start := s.current }) := by
      unfold match_char
      rw [hstep, hg1]
      dsimp only []
      rw [if_neg (by decide)]
    have hm2 : match_char (pre ++ '/' :: '*' :: rest2) '*'
        (step { s with start := s.current }) =
        (true, step (step { s with start := s.current })) := by
      unfold match_char
      rw [hstep, hg1]
      dsimp only []
      rw [if_pos rfl]
    rw [scan_token]
    have hadv : advance (pre ++ '/' :: '*' :: rest2)
        { s with start := s.current } =
        some ('/', step { s with start := s.current }) := by
      unfold advance
      rw [hg]
    rw [hadv]
    dsimp only []
    rw [hm1, hm2]
    rfl
  rw [hscan]
  dsimp only []
  have hbc : (skip_block_comment (pre ++ '/' :: '*' :: rest2)
      (step (step { s with start := s.current }))).current =
      (pre ++ '/' :: '*' :: rest2).length := by
    refine skip_block_comment_no_close (pre ++ '/' :: '*' :: rest2).length _
      (by simp only [step]; omega) (by simp only [step]; omega) ?_
    intro j hj
    simp only [step] at hj
    rintro ⟨hj1, hj2⟩
    have hj1' : ('/' :: '*' :: rest2).get? (j - pre.length) = some '*' := by
      rw [← hj1, List.get?_append_right (by omega)]
    have hj2' : ('/' :: '*' :: rest2).get? (j + 1 - pre.length) = some '/' := by
      rw [← hj2, List.get?_append_right (by omega)]
    have hji : 2 ≤ j - pre.length := by omega
    match hj3 : j - pre.length, hji with
    | Nat.succ (Nat.succ k), _ =>
      rw [hj3] at hj1'
      rw [show j + 1 - pre.length = Nat.succ (Nat.succ (Nat.succ k)) from by
        omega] at hj2'
      rw [List.get?_cons_succ, List.get?_cons_succ] at hj1' hj2'
      exact no_block_close_pair hnbc ⟨hj1', hj2'⟩
  rw [tokenize_loop.eq_def, dif_pos (by omega)]
  exact ⟨_, rfl⟩

theorem tokenize_loop_unterminated_block {pre rest2 : List Char}
    (hncs : no_comment_start pre = true)
    (hlast : pre.getLast? ≠ some '/')
    (hnbc : no_block_close rest2 = true) :
    ∀ (N : Nat) (s : LexState) (ts : List Token),
      pre.length - s.current ≤ N → s.current ≤ pre.length →
      tokenize_loop pre s = .ok ts →
      ∃ ts2, tokenize_loop (pre ++ '/' :: '*' :: rest2) s = .ok ts2 := by
  have hbm : ('/' : Char) = ' ' ∨ ('/' : Char) = '\t' ∨ ('/' : Char) = '\r' ∨
      ('/' : Char) = '\n' ∨ ('/' : Char) = '/' := by
    exact Or.inr (Or.inr (Or.inr (Or.inr rfl)))
  have hseam : ¬(pre.getLast? = some '/' ∧
      (('/' : Char) = '/' ∨ ('/' : Char) = '*')) := by
    rintro ⟨h1, _⟩
    exact hlast h1
  intro N
  induction N with
  | zero =>
    intro s ts hN hle h
    exact tokenize_loop_block_boundary hnbc s (by omega)
  | succ N ih =>
    intro s ts hN hle h
    by_cases hend : pre.length ≤ s.current
    · exact tokenize_loop_block_boundary hnbc s (by omega)
    · rw [tokenize_loop.eq_def, dif_neg hend] at h
      dsimp only [] at h
      have hwb := (skip_whitespace_bounds pre s).2
      have hwb1 := (skip_whitespace_bounds pre s).1
      by_cases hs0 : (skip_whitespace pre s).current < pre.length
      · rw [tokenize_loop.eq_def,
          dif_neg (by rw [List.length_append]; simp; omega)]
        dsimp only []
        rw [skip_whitespace_ext pre.length s (by omega) hs0]
        split at h
        · cases h
        · cases h
        · rename_i s2 heq
          have hspec := scan_token_spec heq
          rw [scan_token_ext hbm hncs hseam (by simp only []; omega)
            (Nat.le_refl _) heq]
          exact ih s2 ts (by simp only [] at hspec; omega)
            (by simp only [] at hspec; omega) h
        · rename_i tt s2 heq
          have hspec := scan_token_spec heq
          rw [scan_token_ext hbm hncs hseam (by simp only []; omega)
            (Nat.le_refl _) heq]
          dsimp only []
          split at h
          · rename_i rest hrest
            obtain ⟨ts2, hts2⟩ := ih s2 rest (by simp only [] at hspec; omega)
              (by simp only [] at hspec; omega) hrest
            rw [hts2]
            exact ⟨_, rfl⟩
          · cases h
          · cases h
      · have hs0c : (skip_whitespace pre s).current = pre.length := by omega
        rw [scan_token_panic_at_end (by simp only []; omega)] at h
        cases h

/-- **C9.** A source text consisting of error-free, comment-free
content, then a `/*` block comment that is never closed before
end-of-input, tokenizes to `Ok`: the unterminated comment and
everything after it are silently consumed rather than reported as a
`LexError`.  (`hlast` excludes a `/` at the very end of the leading
content, which would pair with the `/` of `/*` into a `//` line
comment instead.) -/
theorem tokenize_unterminated_block_comment (pre rest2 : List Char)
    (hncs : no_comment_start pre = true)
    (hlast : pre.getLast? ≠ some '/')
    (hnbc : no_block_close rest2 = true)
    (hok : ∃ ts, tokenize pre = .ok ts) :
    ∃ ts2, tokenize (pre ++ '/' :: '*' :: rest2) = .ok ts2 := by
  obtain ⟨ts, hts⟩ := hok
  exact tokenize_loop_unterminated_block hncs hlast hnbc
    pre.length _ ts (Nat.sub_le _ _) (Nat.zero_le _) hts

/-- Witness for **C9** at the concrete text `"a/*x"`. -/
theorem tokenize_unterminated_block_comment_witness :
    ∃ ts2, tokenize ("a".data ++ '/' :: '*' :: "x".data) = .ok ts2 :=
  tokenize_unterminated_block_comment "a".data "x".data rfl
    (by decide) rfl ⟨_, rfl⟩
end Lexer

namespace HParser

/-- Result of a fallible parser operation: `msg` embeds Rust
`Err(String)`, `panic` embeds a Rust panic (`Vec` indexing out of
bounds, `usize` underflow, `unreachable!()`) as well as exhaustion of
the recursion fuel that stands in for the unbounded Rust call stack. -/
inductive PErr
  | msg (m : String)
  | panic

/-- Shorthand for the `Result` type all parser methods return. -/
abbrev PRes (α : Type) : Type := Except PErr α

/-- Token vocabulary of `parser.rs`.  The `lexer::TokenType` that
`parser.rs` imports is not the `TokenType` declared in
`src/crates/lexer/src/token.rs` (the repository mixes snapshots), so
this enum is reconstructed from the variants `parser.rs` itself
mentions; payload-free variants carry nothing, literal variants carry
their value (`f64` floats are carried as their literal text). -/
inductive PTokenType
  | Newline
  | Eof
  | Identifier (name : String)
  | IntLiteral (value : Int)
  | FloatLiteral (value : String)
  | StringLiteral (value : String)
  | CharLiteral (value : Char)
  | BoolLiteral (value : Bool)
  | None
  | Let
  | Const
  | Function
  | Struct
  | Include
  | Typedef
  | If
  | Else
  | For
  | ForEach
  | While
  | Match
  | Return
  | Break
  | Skip
  | In
  | As
  | LeftBrace
  | RightBrace
  | LeftParen
  | RightParen
  | LeftBracket
  | RightBracket
  | Semicolon
  | Colon
  | Comma
  | Dot
  | Arrow
  | EqualArrow
  | Assign
  | PlusAssign
  | MinusAssign
  | MultiplyAssign
  | DivideAssign
  | ModuloAssign
  | Or
  | And
  | BitwiseOr
  | BitwiseXor
  | BitwiseAnd
  | Equal
  | NotEqual
  | LeftAngle
  | RightAngle
  | LessEqual
  | GreaterEqual
  | RangeExclusive
  | RangeInclusive
  | BitShiftLeft
  | BitShiftRight
  | Minus
  | Plus
  | Divide
  | Multiply
  | Modulo
  | Not
  | Increment
  | Decrement
  | Scope

/-- Discriminant of a token kind, modelling `std::mem::discriminant`:
two token kinds have the same `tag` exactly when they are the same
variant, regardless of payload. -/
def tag : PTokenType → Nat
  | .Newline => 0
  | .Eof => 1
  | .Identifier _ => 2
  | .IntLiteral _ => 3
  | .FloatLiteral _ => 4
  | .StringLiteral _ => 5
  | .CharLiteral _ => 6
  | .BoolLiteral _ => 7
  | .None => 8
  | .Let => 9
  | .Const => 10
  | .Function => 11
  | .Struct => 12
  | .Include => 13
  | .Typedef => 14
  | .If => 15
  | .Else => 16
  | .For => 17
  | .ForEach => 18
  | .While => 19
  | .Match => 20
  | .Return => 21
  | .Break => 22
  | .Skip => 23
  | .In => 24
  | .As => 25
  | .LeftBrace => 26
  | .RightBrace => 27
  | .LeftParen => 28
  | .RightParen => 29
  | .LeftBracket => 30
  | .RightBracket => 31
  | .Semicolon => 32
  | .Colon => 33
  | .Comma => 34
  | .Dot => 35
  | .Arrow => 36
  | .EqualArrow => 37
  | .Assign => 38
  | .PlusAssign => 39
  | .MinusAssign => 40
  | .MultiplyAssign => 41
  | .DivideAssign => 42
  | .ModuloAssign => 43
  | .Or => 44
  | .And => 45
  | .BitwiseOr => 46
  | .BitwiseXor => 47
  | .BitwiseAnd => 48
  | .Equal => 49
  | .NotEqual => 50
  | .LeftAngle => 51
  | .RightAngle => 52
  | .LessEqual => 53
  | .GreaterEqual => 54
  | .RangeExclusive => 55
  | .RangeInclusive => 56
  | .BitShiftLeft => 57
  | .BitShiftRight => 58
  | .Minus => 59
  | .Plus => 60
  | .Divide => 61
  | .Multiply => 62
  | .Modulo => 63
  | .Not => 64
  | .Increment => 65
  | .Decrement => 66
  | .Scope => 67

/-- Debug rendering of a token kind, standing in for Rust `{:?}`
formatting in the two error messages that use it. -/
def ptt_repr : PTokenType → String
  | .Newline => "Newline"
  | .Eof => "Eof"
  | .Identifier s => "Identifier(\"" ++ s ++ "\")"
  | .IntLiteral n => "IntLiteral(" ++ toString n ++ ")"
  | .FloatLiteral s => "FloatLiteral(" ++ s ++ ")"
  | .StringLiteral s => "StringLiteral(\"" ++ s ++ "\")"
  | .CharLiteral ch => "CharLiteral(\x27" ++ String.mk [ch] ++ "\x27)"
  | .BoolLiteral b => "BoolLiteral(" ++ toString b ++ ")"
  | .None => "None"
  | .Let => "Let"
  | .Const => "Const"
  | .Function => "Function"
  | .Struct => "Struct"
  | .Include => "Include"
  | .Typedef => "Typedef"
  | .If => "If"
  | .Else => "Else"
  | .For => "For"
  | .ForEach => "ForEach"
  | .While => "While"
  | .Match => "Match"
  | .Return => "Return"
  | .Break => "Break"
  | .Skip => "Skip"
  | .In => "In"
  | .As => "As"
  | .LeftBrace => "LeftBrace"
  | .RightBrace => "RightBrace"
  | .LeftParen => "LeftParen"
  | .RightParen => "RightParen"
  | .LeftBracket => "LeftBracket"
  | .RightBracket => "RightBracket"
  | .Semicolon => "Semicolon"
  | .Colon => "Colon"
  | .Comma => "Comma"
  | .Dot => "Dot"
  | .Arrow => "Arrow"
  | .EqualArrow => "EqualArrow"
  | .Assign => "Assign"
  | .PlusAssign => "PlusAssign"
  | .MinusAssign => "MinusAssign"
  | .MultiplyAssign => "MultiplyAssign"
  | .DivideAssign => "DivideAssign"
  | .ModuloAssign => "ModuloAssign"
  | .Or => "Or"
  | .And => "And"
  | .BitwiseOr => "BitwiseOr"
  | .BitwiseXor => "BitwiseXor"
  | .BitwiseAnd => "BitwiseAnd"
  | .Equal => "Equal"
  | .NotEqual => "NotEqual"
  | .LeftAngle => "LeftAngle"
  | .RightAngle => "RightAngle"
  | .LessEqual => "LessEqual"
  | .GreaterEqual => "GreaterEqual"
  | .RangeExclusive => "RangeExclusive"
  | .RangeInclusive => "RangeInclusive"
  | .BitShiftLeft => "BitShiftLeft"
  | .BitShiftRight => "BitShiftRight"
  | .Minus => "Minus"
  | .Plus => "Plus"
  | .Divide => "Divide"
  | .Multiply => "Multiply"
  | .Modulo => "Modulo"
  | .Not => "Not"
  | .Increment => "Increment"
  | .Decrement => "Decrement"
  | .Scope => "Scope"

/-- A token as the parser consumes it; modelled from the fields
`parser.rs` actually reads (`token_type`, `line`, `column`). -/
structure PToken where
  token_type : PTokenType
  line : Nat
  column : Nat

/-- Literal values from `ast.rs` (`f64` floats carried as text). -/
inductive LiteralValue
  | Int (v : Int)
  | Float (v : String)
  | String (v : String)
  | Char (v : Char)
  | Bool (v : Bool)
  | None

inductive BinaryOp
  | Add
  | Subtract
  | Multiply
  | Divide
  | Modulo
  | Equal
  | NotEqual
  | Less
  | LessEqual
  | Greater
  | GreaterEqual
  | And
  | Or
  | BitwiseAnd
  | BitwiseOr
  | BitwiseXor
  | BitShiftLeft
  | BitShiftRight
  | Range
  | RangeInclusive

inductive UnaryOp
  | Not
  | Negate
  | PreIncrement
  | PostIncrement
  | PreDecrement
  | PostDecrement

inductive ArraySize
  | Concrete (n : Nat)
  | Generic (s : String)

/-- The `Type` enum of `ast.rs` (`Type` is reserved in Lean, hence
`Ty`). -/
inductive Ty
  | I8
  | I16
  | I32
  | I64
  | U8
  | U16
  | U32
  | U64
  | F32
  | F64
  | Char
  | Bool
  | String
  | Void
  | Custom (name : String)
  | Array (element_const : Bool) (element_type : Ty) (size : ArraySize)
  | Optional (t : Ty)

inductive Pattern
  | Literal (v : LiteralValue)
  | Identifier (name : String)
  | Wildcard

mutual

/-- Expressions from `ast.rs`; `Box<Expr>` becomes a direct child and
the reserved field name `end` becomes `end_`. -/
inductive Expr
  | Literal (v : LiteralValue)
  | Variable (name : String)
  | Binary (left : Expr) (op : BinaryOp) (right : Expr)
  | Unary (op : UnaryOp) (expr : Expr)
  | FunctionCall (name : String) (args : List Expr)
  | MethodCall (object : Expr) (method : String) (args : List Expr)
  | StaticCall (type_name : String) (method : String) (args : List Expr)
  | StructInit (name : String) (fields : List (String × Expr))
  | ArrayInit (elements : List Expr)
  | Assignment (name : String) (value : Expr)
  | CompoundAssignment (name : String) (op : BinaryOp) (value : Expr)
  | FieldAccess (object : Expr) (field : String)
  | Index (array : Expr) (index : Expr)
  | Slice (is_heap_allocated : Bool) (array : Expr) (start : Expr)
      (end_ : Expr) (is_inclusive : Bool)
  | Cast (expr : Expr) (target_type : Ty)
  | Range (start : Expr) (end_ : Expr) (is_inclusive : Bool)
  | Match (expr : Expr) (arms : List MatchArm)

inductive MatchArm
  | mk (pattern : Pattern) (value : Expr)

end

structure VarDecl where
  is_mutable : Bool
  name : String
  var_type : Ty
  initializer : Expr

structure Parameter where
  name : String
  param_type : Ty

structure StructField where
  name : String
  field_type : Ty

structure IncludeDecl where
  path : String

structure TypedefDecl where
  alias_ : String
  original_type : Ty

mutual

inductive Statement
  | VariableDeclaration (v : VarDecl)
  | FunctionDeclaration (f : FnDecl)
  | StructDeclaration (s : StructDecl)
  | IncludeDeclaration (i : IncludeDecl)
  | TypedefDeclaration (t : TypedefDecl)
  | If (condition : Expr) (then_branch : Statement)
      (else_branch : Option Statement)
  | For (l : ForRangeLoop)
  | ForEach (l : ForEachLoop)
  | While (condition : Expr) (body : List Statement)
  | Match (expr : Expr) (arms : List MatchArm)
  | Return (value : Option Expr)
  | Break
  | Skip
  | Expression (e : Expr)
  | Block (stmts : List Statement)

inductive FnDecl
  | mk (name : String) (params : List Parameter) (return_type : Ty)
      (body : List Statement)

inductive StructDecl
  | mk (name : String) (fields : List StructField) (methods : List FnDecl)

inductive ForRangeLoop
  | mk (iterator_name : String) (range : Expr) (body : List Statement)

inductive ForEachLoop
  | mk (element_name : String) (iterable : Expr) (body : List Statement)

end

abbrev Program := List Statement

/-- The `as u64` cast applied to the `i64` payload of an array-size
literal: reduction modulo 2 to the 64. -/
def int_as_u64 (n : Int) : Nat :=
  (n % (18446744073709551616 : Int)).toNat

/-- Parser state: the token buffer and the cursor, as in
`struct Parser` of `parser.rs`. -/
structure Parser where
  tokens : List PToken
  current : Nat

def Parser.new (tokens : List PToken) : Parser :=
  { tokens := tokens, current := 0 }

/-- `self.tokens[self.current].token_type`; indexing out of bounds is
a panic. -/
def peek (p : Parser) : PRes PTokenType :=
  match p.tokens.get? p.current with
  | some t => pure t.token_type
  | none => throw PErr.panic

/-- `self.tokens[self.current - 1].token_type`; at `current = 0` the
`usize` subtraction itself panics (debug) or wraps far out of bounds
(release), so both are modelled as a panic. -/
def previous (p : Parser) : PRes PTokenType :=
  if p.current = 0 then throw PErr.panic
  else
    match p.tokens.get? (p.current - 1) with
    | some t => pure t.token_type
    | none => throw PErr.panic

/-- `*self.peek() == TokenType::Eof` (`Eof` carries no payload, so the
`PartialEq` test is a variant test). -/
def is_at_end (p : Parser) : PRes Bool := do
  let t ← peek p
  match t with
  | PTokenType.Eof => pure true
  | _ => pure false

def advance (p : Parser) : PRes (PTokenType × Parser) := do
  let e ← is_at_end p
  let p1 := if !e then { p with current := p.current + 1 } else p
  let t ← previous p1
  pure (t, p1)

def check (p : Parser) (token_type : PTokenType) : PRes Bool := do
  let e ← is_at_end p
  if e then pure false
  else do
    let t ← peek p
    pure (tag t == tag token_type)

def match_token (p : Parser) (token_type : PTokenType) :
    PRes (Bool × Parser) := do
  let c ← check p token_type
  if c then do
    let (_, p1) ← advance p
    pure (true, p1)
  else pure (false, p)

def consume (p : Parser) (token_type : PTokenType) (message : String) :
    PRes Parser := do
  let c ← check p token_type
  if c then do
    let (_, p1) ← advance p
    pure p1
  else
    match p.tokens.get? p.current with
    | some t =>
      throw (PErr.msg (message ++ " at line " ++ toString t.line ++
        ", column " ++ toString t.column))
    | none => throw PErr.panic

def get_identifier (p : Parser) : PRes String := do
  let t ← previous p
  match t with
  | PTokenType.Identifier name => pure name
  | _ => throw (PErr.msg "Expected identifier")

def compound_assign_to_binary_op (token_type : PTokenType) :
    PRes BinaryOp :=
  match token_type with
  | PTokenType.PlusAssign => pure BinaryOp.Add
  | PTokenType.MinusAssign => pure BinaryOp.Subtract
  | PTokenType.MultiplyAssign => pure BinaryOp.Multiply
  | PTokenType.DivideAssign => pure BinaryOp.Divide
  | PTokenType.ModuloAssign => pure BinaryOp.Modulo
  | _ => throw (PErr.msg "Invalid compound assignment operator")

mutual

/-- `Parser::parse`: the top-level loop over statements, skipping
newlines.  Every function in this mutual block takes a `fuel`
argument standing in for the unbounded Rust call stack; each call
peels one unit, and exhaustion is a panic (it never occurs at
sufficient fuel). -/
def parse (fuel : Nat) (p : Parser) : PRes Program :=
  match fuel with
  | 0 => throw PErr.panic
  | fuel + 1 => do
    let (statements, _) ← parse_program_loop fuel p
    pure statements

/-- The `while !self.is_at_end()` loop body of `parse`. -/
def parse_program_loop (fuel : Nat) (p : Parser) :
    PRes (List Statement × Parser) :=
  match fuel with
  | 0 => throw PErr.panic
  | fuel + 1 => do
    let e ← is_at_end p
    if e then pure ([], p)
    else do
      let (m, p1) ← match_token p PTokenType.Newline
      if m then parse_program_loop fuel p1
      else do
        let (st, p2) ← parse_statement fuel p1
        let (rest, p3) ← parse_program_loop fuel p2
        pure (st :: rest, p3)

def parse_statement (fuel : Nat) (p : Parser) :
    PRes (Statement × Parser) :=
  match fuel with
  | 0 => throw PErr.panic
  | fuel + 1 => do
    let t ← peek p
    match t with
    | PTokenType.Let | PTokenType.Const => parse_variable_declaration fuel p
    | PTokenType.Function => parse_function_declaration fuel p
    | PTokenType.Struct => parse_struct_declaration fuel p
    | PTokenType.Include => parse_include_declaration fuel p
    | PTokenType.Typedef => parse_typedef_declaration fuel p
    | PTokenType.If => parse_if_statement fuel p
    | PTokenType.For => parse_for_statement fuel p
    | PTokenType.ForEach => parse_foreach_statement fuel p
    | PTokenType.While => parse_while_statement fuel p
    | PTokenType.Match => parse_match_statement fuel p
    | PTokenType.Return => parse_return_statement fuel p
    | PTokenType.Break => do
      let (_, p1) ← advance p
      let p2 ← consume p1 PTokenType.Semicolon
        "Expected \x27;\x27 after \x27break\x27"
      pure (Statement.Break, p2)
    | PTokenType.Skip => do
      let (_, p1) ← advance p
      let p2 ← consume p1 PTokenType.Semicolon
        "Expected \x27;\x27 after \x27skip\x27"
      pure (Statement.Skip, p2)
    | PTokenType.LeftBrace => parse_block_statement fuel p
    | _ => parse_expression_statement fuel p

def parse_variable_declaration (fuel : Nat) (p : Parser) :
    PRes (Statement × Parser) :=
  match fuel with
  | 0 => throw PErr.panic
  | fuel + 1 => do
    let (t, p1) ← advance p
    let is_mutable ← (match t with
      | PTokenType.Let => pure true
      | PTokenType.Const => pure false
      | _ => throw (PErr.msg "Expected \x27let\x27 or \x27const\x27"))
    let (m, p2) ← match_token p1 (PTokenType.Identifier "")
    if !m then throw (PErr.msg "Expected variable name")
    let name ← get_identifier p2
    let p3 ← consume p2 PTokenType.Colon
      "Expected \x27:\x27 after variable name"
    let (var_type, p4) ← parse_type fuel p3
    let p5 ← consume p4 PTokenType.Assign
      "Expected \x27=\x27 after variable type"
    let (initializer, p6) ← parse_expression fuel p5
    let p7 ← consume p6 PTokenType.Semicolon
      "Expected \x27;\x27 after variable declaration"
    pure (Statement.VariableDeclaration
      { is_mutable := is_mutable, name := name, var_type := var_type,
        initializer := initializer }, p7)

def parse_function_declaration (fuel : Nat) (p : Parser) :
    PRes (Statement × Parser) :=
  match fuel with
  | 0 => throw PErr.panic
  | fuel + 1 => do
    let (_, p1) ← advance p
    let (m, p2) ← match_token p1 (PTokenType.Identifier "")
    if !m then throw (PErr.msg "Expected function name")
    let name ← get_identifier p2
    let p3 ← consume p2 PTokenType.LeftParen
      "Expected \x27(\x27 after function name"
    let cr ← check p3 PTokenType.RightParen
    let (params, p4) ←
      if cr then pure (([] : List Parameter), p3)
      else parse_params_loop fuel p3
    let p5 ← consume p4 PTokenType.RightParen
      "Expected \x27)\x27 after parameters"
    let p6 ← consume p5 PTokenType.Arrow
      "Expected \x27->\x27 after parameters"
    let (return_type, p7) ← parse_type fuel p6
    let p8 ← consume p7 PTokenType.LeftBrace
      "Expected \x27\x7b\x27 before function body"
    let (body, p9) ← parse_stmt_list_loop fuel p8
    let p10 ← consume p9 PTokenType.RightBrace
      "Expected \x27\x7d\x27 after function body"
    pure (Statement.FunctionDeclaration
      (FnDecl.mk name params return_type body), p10)

/-- The parameter-list `loop` of `parse_function_declaration`. -/
def parse_params_loop (fuel : Nat) (p : Parser) :
    PRes (List Parameter × Parser) :=
  match fuel with
  | 0 => throw PErr.panic
  | fuel + 1 => do
    let (m, p1) ← match_token p (PTokenType.Identifier "")
    if !m then throw (PErr.msg "Expected parameter name")
    let param_name ← get_identifier p1
    let p2 ← consume p1 PTokenType.Colon
      "Expected \x27:\x27 after parameter name"
    let (param_type, p3) ← parse_type fuel p2
    let (mc, p4) ← match_token p3 PTokenType.Comma
    if mc then do
      let (rest, p5) ← parse_params_loop fuel p4
      pure ({ name := param_name, param_type := param_type } :: rest, p5)
    else pure ([{ name := param_name, param_type := param_type }], p4)

def parse_struct_declaration (fuel : Nat) (p : Parser) :
    PRes (Statement × Parser) :=
  match fuel with
  | 0 => throw PErr.panic
  | fuel + 1 => do
    let (_, p1) ← advance p
    let (m, p2) ← match_token p1 (PTokenType.Identifier "")
    if !m then throw (PErr.msg "Expected struct name")
    let name ← get_identifier p2
    let p3 ← consume p2 PTokenType.LeftBrace
      "Expected \x27\x7b\x27 after struct name"
    let (fields, methods, p4) ← parse_struct_body_loop fuel p3
    let p5 ← consume p4 PTokenType.RightBrace
      "Expected \x27\x7d\x27 after struct body"
    pure (Statement.StructDeclaration (StructDecl.mk name fields methods),
      p5)

/-- The field/method collection loop of `parse_struct_declaration`. -/
def parse_struct_body_loop (fuel : Nat) (p : Parser) :
    PRes (List StructField × List FnDecl × Parser) :=
  match fuel with
  | 0 => throw PErr.panic
  | fuel + 1 => do
    let c ← check p PTokenType.RightBrace
    if c then pure ([], [], p)
    else do
      let e ← is_at_end p
      if e then pure ([], [], p)
      else do
        let (m, p1) ← match_token p PTokenType.Newline
        if m then parse_struct_body_loop fuel p1
        else do
          let cf ← check p1 PTokenType.Function
          if cf then do
            let (st, p2) ← parse_function_declaration fuel p1
            match st with
            | Statement.FunctionDeclaration fn_decl => do
              let (fs, ms, p3) ← parse_struct_body_loop fuel p2
              pure (fs, fn_decl :: ms, p3)
            | _ => throw PErr.panic
          else do
            let (mf, p2) ← match_token p1 (PTokenType.Identifier "")
            if !mf then throw (PErr.msg "Expected field name")
            let field_name ← get_identifier p2
            let p3 ← consume p2 PTokenType.Colon
              "Expected \x27:\x27 after field name"
            let (field_type, p4) ← parse_type fuel p3
            let p5 ← consume p4 PTokenType.Comma
              "Expected \x27,\x27 after field declaration"
            let (fs, ms, p6) ← parse_struct_body_loop fuel p5
            pure ({ name := field_name, field_type := field_type } :: fs,
              ms, p6)

def parse_include_declaration (fuel : Nat) (p : Parser) :
    PRes (Statement × Parser) :=
  match fuel with
  | 0 => throw PErr.panic
  | _fuel + 1 => do
    let (_, p1) ← advance p
    let (t, p2) ← advance p1
    let path ← (match t with
      | PTokenType.StringLiteral s => pure s
      | _ =>
        throw (PErr.msg "Expected string literal after \x27include\x27"))
    let p3 ← consume p2 PTokenType.Semicolon
      "Expected \x27;\x27 after include path"
    pure (Statement.IncludeDeclaration { path := path }, p3)

def parse_typedef_declaration (fuel : Nat) (p : Parser) :
    PRes (Statement × Parser) :=
  match fuel with
  | 0 => throw PErr.panic
  | fuel + 1 => do
    let (_, p1) ← advance p
    let (m, p2) ← match_token p1 (PTokenType.Identifier "")
    if !m then throw (PErr.msg "Expected type alias name")
    let alias_ ← get_identifier p2
    let p3 ← consume p2 PTokenType.Assign
      "Expected \x27=\x27 after type alias"
    let (original_type, p4) ← parse_type fuel p3
    let p5 ← consume p4 PTokenType.Semicolon
      "Expected \x27;\x27 after typedef"
    pure (Statement.TypedefDeclaration
      { alias_ := alias_, original_type := original_type }, p5)

def parse_if_statement (fuel : Nat) (p : Parser) :
    PRes (Statement × Parser) :=
  match fuel with
  | 0 => throw PErr.panic
  | fuel + 1 => do
    let (_, p1) ← advance p
    let p2 ← consume p1 PTokenType.LeftParen
      "Expected \x27(\x27 after \x27if\x27"
    let (condition, p3) ← parse_expression fuel p2
    let p4 ← consume p3 PTokenType.RightParen
      "Expected \x27)\x27 after if condition"
    let (then_branch, p5) ← parse_statement fuel p4
    let (me, p6) ← match_token p5 PTokenType.Else
    if me then do
      let (eb, p7) ← parse_statement fuel p6
      pure (Statement.If condition then_branch (some eb), p7)
    else pure (Statement.If condition then_branch none, p6)

def parse_match_statement (fuel : Nat) (p : Parser) :
    PRes (Statement × Parser) :=
  match fuel with
  | 0 => throw PErr.panic
  | fuel + 1 => do
    let (_, p1) ← advance p
    let (expr, p2) ← parse_expression fuel p1
    let p3 ← consume p2 PTokenType.LeftBrace
      "Expected \x27\x7b\x27 after match expression"
    let (arms, p4) ← parse_arms_loop fuel p3
    let p5 ← consume p4 PTokenType.RightBrace
      "Expected \x27\x7d\x27 after match arms"
    pure (Statement.Match expr arms, p5)

/-- The arm-collection loop of `parse_match_statement`. -/
def parse_arms_loop (fuel : Nat) (p : Parser) :
    PRes (List MatchArm × Parser) :=
  match fuel with
  | 0 => throw PErr.panic
  | fuel + 1 => do
    let c ← check p PTokenType.RightBrace
    if c then pure ([], p)
    else do
      let e ← is_at_end p
      if e then pure ([], p)
      else do
        let (m, p1) ← match_token p PTokenType.Newline
        if m then parse_arms_loop fuel p1
        else do
          let (arm, p2) ← parse_match_arm fuel p1
          let (rest, p3) ← parse_arms_loop fuel p2
          pure (arm :: rest, p3)

def parse_match_arm (fuel : Nat) (p : Parser) :
    PRes (MatchArm × Parser) :=
  match fuel with
  | 0 => throw PErr.panic
  | fuel + 1 => do
    let (pat, p1) ← parse_pattern fuel p
    let p2 ← consume p1 PTokenType.EqualArrow
      "Expected \x27=>\x27 after match pattern"
    let (value, p3) ← parse_expression fuel p2
    let (_, p4) ← match_token p3 PTokenType.Comma
    pure (MatchArm.mk pat value, p4)

def parse_pattern (fuel : Nat) (p : Parser) :
    PRes (Pattern × Parser) :=
  match fuel with
  | 0 => throw PErr.panic
  | fuel + 1 => do
    let t ← peek p
    match t with
    | PTokenType.IntLiteral _ | PTokenType.FloatLiteral _
    | PTokenType.StringLiteral _ | PTokenType.CharLiteral _
    | PTokenType.BoolLiteral true | PTokenType.BoolLiteral false
    | PTokenType.None => do
      let (e, p1) ← parse_primary fuel p
      match e with
      | Expr.Literal lit => pure (Pattern.Literal lit, p1)
      | _ => throw (PErr.msg "Expected a literal pattern.")
    | PTokenType.Identifier _ => do
      let (t1, p1) ← advance p
      match t1 with
      | PTokenType.Identifier name =>
        if name == "_" then pure (Pattern.Wildcard, p1)
        else pure (Pattern.Identifier name, p1)
      | _ => throw PErr.panic
    | _ =>
      throw (PErr.msg ("Unexpected token in pattern: " ++ ptt_repr t))

def parse_for_statement (fuel : Nat) (p : Parser) :
    PRes (Statement × Parser) :=
  match fuel with
  | 0 => throw PErr.panic
  | fuel + 1 => do
    let (_, p1) ← advance p
    let p2 ← consume p1 PTokenType.LeftParen
      "Expected \x27(\x27 after \x27for\x27"
    let (m, p3) ← match_token p2 (PTokenType.Identifier "")
    if !m then throw (PErr.msg "Expected iterator variable name")
    let iterator_name ← get_identifier p3
    let p4 ← consume p3 PTokenType.In
      "Expected \x27in\x27 after iterator variable"
    let (range, p5) ← parse_expression fuel p4
    let p6 ← consume p5 PTokenType.RightParen
      "Expected \x27)\x27 after for range"
    let p7 ← consume p6 PTokenType.LeftBrace
      "Expected \x27\x7b\x27 after for header"
    let (body, p8) ← parse_stmt_list_loop fuel p7
    let p9 ← consume p8 PTokenType.RightBrace
      "Expected \x27\x7d\x27 after for body"
    pure (Statement.For (ForRangeLoop.mk iterator_name range body), p9)

def parse_foreach_statement (fuel : Nat) (p : Parser) :
    PRes (Statement × Parser) :=
  match fuel with
  | 0 => throw PErr.panic
  | fuel + 1 => do
    let (_, p1) ← advance p
    let p2 ← consume p1 PTokenType.LeftParen
      "Expected \x27(\x27 after \x27forEach\x27"
    let (m, p3) ← match_token p2 (PTokenType.Identifier "")
    if !m then throw (PErr.msg "Expected element variable name")
    let element_name ← get_identifier p3
    let p4 ← consume p3 PTokenType.In
      "Expected \x27in\x27 after element variable"
    let (iterable, p5) ← parse_expression fuel p4
    let p6 ← consume p5 PTokenType.RightParen
      "Expected \x27)\x27 after forEach iterable"
    let p7 ← consume p6 PTokenType.LeftBrace
      "Expected \x27\x7b\x27 after forEach header"
    let (body, p8) ← parse_stmt_list_loop fuel p7
    let p9 ← consume p8 PTokenType.RightBrace
      "Expected \x27\x7d\x27 after forEach body"
    pure (Statement.ForEach (ForEachLoop.mk element_name iterable body),
      p9)

def parse_while_statement (fuel : Nat) (p : Parser) :
    PRes (Statement × Parser) :=
  match fuel with
  | 0 => throw PErr.panic
  | fuel + 1 => do
    let (_, p1) ← advance p
    let p2 ← consume p1 PTokenType.LeftParen
      "Expected \x27(\x27 after \x27while\x27"
    let (condition, p3) ← parse_expression fuel p2
    let p4 ← consume p3 PTokenType.RightParen
      "Expected \x27)\x27 after while condition"
    let p5 ← consume p4 PTokenType.LeftBrace
      "Expected \x27\x7b\x27 after while condition"
    let (body, p6) ← parse_stmt_list_loop fuel p5
    let p7 ← consume p6 PTokenType.RightBrace
      "Expected \x27\x7d\x27 after while body"
    pure (Statement.While condition body, p7)

def parse_return_statement (fuel : Nat) (p : Parser) :
    PRes (Statement × Parser) :=
  match fuel with
  | 0 => throw PErr.panic
  | fuel + 1 => do
    let (_, p1) ← advance p
    let cs ← check p1 PTokenType.Semicolon
    if cs then do
      let p2 ← consume p1 PTokenType.Semicolon
        "Expected \x27;\x27 after return value"
      pure (Statement.Return none, p2)
    else do
      let (value, p2) ← parse_expression fuel p1
      let p3 ← consume p2 PTokenType.Semicolon
        "Expected \x27;\x27 after return value"
      pure (Statement.Return (some value), p3)

def parse_block_statement (fuel : Nat) (p : Parser) :
    PRes (Statement × Parser) :=
  match fuel with
  | 0 => throw PErr.panic
  | fuel + 1 => do
    let p1 ← consume p PTokenType.LeftBrace "Expected \x27\x7b\x27"
    let (statements, p2) ← parse_stmt_list_loop fuel p1
    let p3 ← consume p2 PTokenType.RightBrace "Expected \x27\x7d\x27"
    pure (Statement.Block statements, p3)

def parse_expression_statement (fuel : Nat) (p : Parser) :
    PRes (Statement × Parser) :=
  match fuel with
  | 0 => throw PErr.panic
  | fuel + 1 => do
    let (expr, p1) ← parse_expression fuel p
    let p2 ← consume p1 PTokenType.Semicolon
      "Expected \x27;\x27 after expression"
    pure (Statement.Expression expr, p2)

/-- The `while !self.check(&RightBrace) && !self.is_at_end()`
statement-collection loop that appears verbatim in the function, for,
forEach, while and block statement parsers (newlines skipped, each
statement pushed in order). -/
def parse_stmt_list_loop (fuel : Nat) (p : Parser) :
    PRes (List Statement × Parser) :=
  match fuel with
  | 0 => throw PErr.panic
  | fuel + 1 => do
    let c ← check p PTokenType.RightBrace
    if c then pure ([], p)
    else do
      let e ← is_at_end p
      if e then pure ([], p)
      else do
        let (m, p1) ← match_token p PTokenType.Newline
        if m then parse_stmt_list_loop fuel p1
        else do
          let (st, p2) ← parse_statement fuel p1
          let (rest, p3) ← parse_stmt_list_loop fuel p2
          pure (st :: rest, p3)

def parse_type (fuel : Nat) (p : Parser) : PRes (Ty × Parser) :=
  match fuel with
  | 0 => throw PErr.panic
  | fuel + 1 => do
    let (mb, p1) ← match_token p PTokenType.LeftBracket
    if mb then do
      let (element_const, p2) ← match_token p1 PTokenType.Const
      let (element_type, p3) ← parse_type fuel p2
      let p4 ← consume p3 PTokenType.Comma
        "Expected \x27,\x27 after array element type"
      let (t, p5) ← advance p4
      let size ← (match t with
        | PTokenType.IntLiteral n => pure (ArraySize.Concrete (int_as_u64 n))
        | PTokenType.Identifier name => pure (ArraySize.Generic name)
        | _ => throw (PErr.msg "Expected array size"))
      let p6 ← consume p5 PTokenType.RightBracket
        "Expected \x27]\x27 after array size"
      pure (Ty.Array element_const element_type size, p6)
    else do
      let (mi, p2) ← match_token p1 (PTokenType.Identifier "")
      if mi then do
        let type_name ← get_identifier p2
        let ty := match type_name with
          | "i8" => Ty.I8
          | "i16" => Ty.I16
          | "i32" => Ty.I32
          | "i64" => Ty.I64
          | "u8" => Ty.U8
          | "u16" => Ty.U16
          | "u32" => Ty.U32
          | "u64" => Ty.U64
          | "f32" => Ty.F32
          | "f64" => Ty.F64
          | "char" => Ty.Char
          | "bool" => Ty.Bool
          | "string" => Ty.String
          | "void" => Ty.Void
          | _ => Ty.Custom type_name
        pure (ty, p2)
      else throw (PErr.msg "Expected type")

def parse_expression (fuel : Nat) (p : Parser) : PRes (Expr × Parser) :=
  match fuel with
  | 0 => throw PErr.panic
  | fuel + 1 => parse_assignment fuel p

def parse_assignment (fuel : Nat) (p : Parser) : PRes (Expr × Parser) :=
  match fuel with
  | 0 => throw PErr.panic
  | fuel + 1 => do
    let (expr, p1) ← parse_or fuel p
    let (ma, p2) ← match_token p1 PTokenType.Assign
    if ma then do
      let (value, p3) ← parse_assignment fuel p2
      match expr with
      | Expr.Variable name => pure (Expr.Assignment name value, p3)
      | _ => throw (PErr.msg "Invalid assignment target.")
    else do
      let c1 ← check p2 PTokenType.PlusAssign
      let c2 ← if c1 then pure true else check p2 PTokenType.MinusAssign
      let c3 ← if c2 then pure true else check p2 PTokenType.MultiplyAssign
      let c4 ← if c3 then pure true else check p2 PTokenType.DivideAssign
      let c5 ← if c4 then pure true else check p2 PTokenType.ModuloAssign
      if c5 then do
        let (t, p3) ← advance p2
        let op ← compound_assign_to_binary_op t
        let (value, p4) ← parse_assignment fuel p3
        match expr with
        | Expr.Variable name =>
          pure (Expr.CompoundAssignment name op value, p4)
        | _ => throw (PErr.msg "Invalid compound assignment target.")
      else pure (expr, p2)

def parse_or (fuel : Nat) (p : Parser) : PRes (Expr × Parser) :=
  match fuel with
  | 0 => throw PErr.panic
  | fuel + 1 => do
    let (expr, p1) ← parse_and fuel p
    parse_or_loop fuel expr p1

def parse_or_loop (fuel : Nat) (expr : Expr) (p : Parser) :
    PRes (Expr × Parser) :=
  match fuel with
  | 0 => throw PErr.panic
  | fuel + 1 => do
    let (m, p1) ← match_token p PTokenType.Or
    if m then do
      let (right, p2) ← parse_and fuel p1
      parse_or_loop fuel (Expr.Binary expr BinaryOp.Or right) p2
    else pure (expr, p1)

def parse_and (fuel : Nat) (p : Parser) : PRes (Expr × Parser) :=
  match fuel with
  | 0 => throw PErr.panic
  | fuel + 1 => do
    let (expr, p1) ← parse_bitwise_or fuel p
    parse_and_loop fuel expr p1

def parse_and_loop (fuel : Nat) (expr : Expr) (p : Parser) :
    PRes (Expr × Parser) :=
  match fuel with
  | 0 => throw PErr.panic
  | fuel + 1 => do
    let (m, p1) ← match_token p PTokenType.And
    if m then do
      let (right, p2) ← parse_bitwise_or fuel p1
      parse_and_loop fuel (Expr.Binary expr BinaryOp.And right) p2
    else pure (expr, p1)

def parse_bitwise_or (fuel : Nat) (p : Parser) : PRes (Expr × Parser) :=
  match fuel with
  | 0 => throw PErr.panic
  | fuel + 1 => do
    let (expr, p1) ← parse_bitwise_xor fuel p
    parse_bitwise_or_loop fuel expr p1

def parse_bitwise_or_loop (fuel : Nat) (expr : Expr) (p : Parser) :
    PRes (Expr × Parser) :=
  match fuel with
  | 0 => throw PErr.panic
  | fuel + 1 => do
    let (m, p1) ← match_token p PTokenType.BitwiseOr
    if m then do
      let (right, p2) ← parse_bitwise_xor fuel p1
      parse_bitwise_or_loop fuel
        (Expr.Binary expr BinaryOp.BitwiseOr right) p2
    else pure (expr, p1)

def parse_bitwise_xor (fuel : Nat) (p : Parser) : PRes (Expr × Parser) :=
  match fuel with
  | 0 => throw PErr.panic
  | fuel + 1 => do
    let (expr, p1) ← parse_bitwise_and fuel p
    parse_bitwise_xor_loop fuel expr p1

def parse_bitwise_xor_loop (fuel : Nat) (expr : Expr) (p : Parser) :
    PRes (Expr × Parser) :=
  match fuel with
  | 0 => throw PErr.panic
  | fuel + 1 => do
    let (m, p1) ← match_token p PTokenType.BitwiseXor
    if m then do
      let (right, p2) ← parse_bitwise_and fuel p1
      parse_bitwise_xor_loop fuel
        (Expr.Binary expr BinaryOp.BitwiseXor right) p2
    else pure (expr, p1)

def parse_bitwise_and (fuel : Nat) (p : Parser) : PRes (Expr × Parser) :=
  match fuel with
  | 0 => throw PErr.panic
  | fuel + 1 => do
    let (expr, p1) ← parse_equality fuel p
    parse_bitwise_and_loop fuel expr p1

def parse_bitwise_and_loop (fuel : Nat) (expr : Expr) (p : Parser) :
    PRes (Expr × Parser) :=
  match fuel with
  | 0 => throw PErr.panic
  | fuel + 1 => do
    let (m, p1) ← match_token p PTokenType.BitwiseAnd
    if m then do
      let (right, p2) ← parse_equality fuel p1
      parse_bitwise_and_loop fuel
        (Expr.Binary expr BinaryOp.BitwiseAnd right) p2
    else pure (expr, p1)

def parse_equality (fuel : Nat) (p : Parser) : PRes (Expr × Parser) :=
  match fuel with
  | 0 => throw PErr.panic
  | fuel + 1 => do
    let (expr, p1) ← parse_comparison fuel p
    parse_equality_loop fuel expr p1

def parse_equality_loop (fuel : Nat) (expr : Expr) (p : Parser) :
    PRes (Expr × Parser) :=
  match fuel with
  | 0 => throw PErr.panic
  | fuel + 1 => do
    let c1 ← check p PTokenType.Equal
    let cond ← if c1 then pure true else check p PTokenType.NotEqual
    if cond then do
      let (t, p1) ← advance p
      let op ← (match t with
        | PTokenType.Equal => pure BinaryOp.Equal
        | PTokenType.NotEqual => pure BinaryOp.NotEqual
        | _ => throw PErr.panic)
      let (right, p2) ← parse_comparison fuel p1
      parse_equality_loop fuel (Expr.Binary expr op right) p2
    else pure (expr, p)

def parse_comparison (fuel : Nat) (p : Parser) : PRes (Expr × Parser) :=
  match fuel with
  | 0 => throw PErr.panic
  | fuel + 1 => do
    let (expr, p1) ← parse_range fuel p
    parse_comparison_loop fuel expr p1

def parse_comparison_loop (fuel : Nat) (expr : Expr) (p : Parser) :
    PRes (Expr × Parser) :=
  match fuel with
  | 0 => throw PErr.panic
  | fuel + 1 => do
    let c1 ← check p PTokenType.LeftAngle
    let c2 ← if c1 then pure true else check p PTokenType.RightAngle
    let c3 ← if c2 then pure true else check p PTokenType.LessEqual
    let c4 ← if c3 then pure true else check p PTokenType.GreaterEqual
    if c4 then do
      let (t, p1) ← advance p
      let op ← (match t with
        | PTokenType.LeftAngle => pure BinaryOp.Less
        | PTokenType.RightAngle => pure BinaryOp.Greater
        | PTokenType.LessEqual => pure BinaryOp.LessEqual
        | PTokenType.GreaterEqual => pure BinaryOp.GreaterEqual
        | _ => throw PErr.panic)
      let (right, p2) ← parse_range fuel p1
      parse_comparison_loop fuel (Expr.Binary expr op right) p2
    else pure (expr, p)

def parse_range (fuel : Nat) (p : Parser) : PRes (Expr × Parser) :=
  match fuel with
  | 0 => throw PErr.panic
  | fuel + 1 => do
    let (expr, p1) ← parse_bitshift fuel p
    let c1 ← check p1 PTokenType.RangeExclusive
    let cond ← if c1 then pure true else check p1 PTokenType.RangeInclusive
    if cond then do
      let (is_inclusive, p2) ← match_token p1 PTokenType.RangeInclusive
      let p3 ←
        if !is_inclusive then do
          let (_, px) ← advance p2
          pure px
        else pure p2
      let (end_, p4) ← parse_bitshift fuel p3
      pure (Expr.Range expr end_ is_inclusive, p4)
    else pure (expr, p1)

def parse_bitshift (fuel : Nat) (p : Parser) : PRes (Expr × Parser) :=
  match fuel with
  | 0 => throw PErr.panic
  | fuel + 1 => do
    let (expr, p1) ← parse_term fuel p
    parse_bitshift_loop fuel expr p1

def parse_bitshift_loop (fuel : Nat) (expr : Expr) (p : Parser) :
    PRes (Expr × Parser) :=
  match fuel with
  | 0 => throw PErr.panic
  | fuel + 1 => do
    let c1 ← check p PTokenType.BitShiftLeft
    let cond ← if c1 then pure true else check p PTokenType.BitShiftRight
    if cond then do
      let (t, p1) ← advance p
      let op ← (match t with
        | PTokenType.BitShiftLeft => pure BinaryOp.BitShiftLeft
        | PTokenType.BitShiftRight => pure BinaryOp.BitShiftRight
        | _ => throw PErr.panic)
      let (right, p2) ← parse_term fuel p1
      parse_bitshift_loop fuel (Expr.Binary expr op right) p2
    else pure (expr, p)

def parse_term (fuel : Nat) (p : Parser) : PRes (Expr × Parser) :=
  match fuel with
  | 0 => throw PErr.panic
  | fuel + 1 => do
    let (expr, p1) ← parse_factor fuel p
    parse_term_loop fuel expr p1

def parse_term_loop (fuel : Nat) (expr : Expr) (p : Parser) :
    PRes (Expr × Parser) :=
  match fuel with
  | 0 => throw PErr.panic
  | fuel + 1 => do
    let c1 ← check p PTokenType.Minus
    let cond ← if c1 then pure true else check p PTokenType.Plus
    if cond then do
      let (t, p1) ← advance p
      let op ← (match t with
        | PTokenType.Minus => pure BinaryOp.Subtract
        | PTokenType.Plus => pure BinaryOp.Add
        | _ => throw PErr.panic)
      let (right, p2) ← parse_factor fuel p1
      parse_term_loop fuel (Expr.Binary expr op right) p2
    else pure (expr, p)

def parse_factor (fuel : Nat) (p : Parser) : PRes (Expr × Parser) :=
  match fuel with
  | 0 => throw PErr.panic
  | fuel + 1 => do
    let (expr, p1) ← parse_cast fuel p
    parse_factor_loop fuel expr p1

def parse_factor_loop (fuel : Nat) (expr : Expr) (p : Parser) :
    PRes (Expr × Parser) :=
  match fuel with
  | 0 => throw PErr.panic
  | fuel + 1 => do
    let c1 ← check p PTokenType.Divide
    let c2 ← if c1 then pure true else check p PTokenType.Multiply
    let cond ← if c2 then pure true else check p PTokenType.Modulo
    if cond then do
      let (t, p1) ← advance p
      let op ← (match t with
        | PTokenType.Divide => pure BinaryOp.Divide
        | PTokenType.Multiply => pure BinaryOp.Multiply
        | PTokenType.Modulo => pure BinaryOp.Modulo
        | _ => throw PErr.panic)
      let (right, p2) ← parse_cast fuel p1
      parse_factor_loop fuel (Expr.Binary expr op right) p2
    else pure (expr, p)

def parse_cast (fuel : Nat) (p : Parser) : PRes (Expr × Parser) :=
  match fuel with
  | 0 => throw PErr.panic
  | fuel + 1 => do
    let (expr, p1) ← parse_unary fuel p
    parse_cast_loop fuel expr p1

def parse_cast_loop (fuel : Nat) (expr : Expr) (p : Parser) :
    PRes (Expr × Parser) :=
  match fuel with
  | 0 => throw PErr.panic
  | fuel + 1 => do
    let (m, p1) ← match_token p PTokenType.As
    if m then do
      let (target_type, p2) ← parse_type fuel p1
      parse_cast_loop fuel (Expr.Cast expr target_type) p2
    else pure (expr, p1)

def parse_unary (fuel : Nat) (p : Parser) : PRes (Expr × Parser) :=
  match fuel with
  | 0 => throw PErr.panic
  | fuel + 1 => do
    let c1 ← check p PTokenType.Not
    let c2 ← if c1 then pure true else check p PTokenType.Minus
    let c3 ← if c2 then pure true else check p PTokenType.Increment
    let cond ← if c3 then pure true else check p PTokenType.Decrement
    if cond then do
      let (t, p1) ← advance p
      let op ← (match t with
        | PTokenType.Not => pure UnaryOp.Not
        | PTokenType.Minus => pure UnaryOp.Negate
        | PTokenType.Increment => pure UnaryOp.PreIncrement
        | PTokenType.Decrement => pure UnaryOp.PreDecrement
        | _ => throw PErr.panic)
      let (e, p2) ← parse_unary fuel p1
      pure (Expr.Unary op e, p2)
    else parse_call fuel p

def parse_call (fuel : Nat) (p : Parser) : PRes (Expr × Parser) :=
  match fuel with
  | 0 => throw PErr.panic
  | fuel + 1 => do
    let (expr, p1) ← parse_primary fuel p
    parse_call_loop fuel expr p1

def parse_call_loop (fuel : Nat) (expr : Expr) (p : Parser) :
    PRes (Expr × Parser) :=
  match fuel with
  | 0 => throw PErr.panic
  | fuel + 1 => do
    let (mp, p1) ← match_token p PTokenType.LeftParen
    if mp then do
      let (e2, p2) ← finish_function_call fuel expr p1
      parse_call_loop fuel e2 p2
    else do
      let (md, p2) ← match_token p1 PTokenType.Dot
      if md then do
        let (mi, p3) ← match_token p2 (PTokenType.Identifier "")
        if !mi then
          throw (PErr.msg "Expected field or method name after \x27.\x27")
        let name ← get_identifier p3
        let (ml, p4) ← match_token p3 PTokenType.LeftParen
        if ml then do
          let (e2, p5) ← finish_method_call fuel expr name p4
          parse_call_loop fuel e2 p5
        else parse_call_loop fuel (Expr.FieldAccess expr name) p4
      else do
        let (mb, p3) ← match_token p2 PTokenType.LeftBracket
        if mb then do
          let (index_or_range, p4) ← parse_expression fuel p3
          let p5 ← consume p4 PTokenType.RightBracket
            "Expected \x27]\x27 after index or slice range"
          match index_or_range with
          | Expr.Range start end_ is_inclusive =>
            parse_call_loop fuel
              (Expr.Slice false expr start end_ is_inclusive) p5
          | _ => parse_call_loop fuel (Expr.Index expr index_or_range) p5
        else do
          let (minc, p4) ← match_token p3 PTokenType.Increment
          if minc then
            parse_call_loop fuel
              (Expr.Unary UnaryOp.PostIncrement expr) p4
          else do
            let (mdec, p5) ← match_token p4 PTokenType.Decrement
            if mdec then
              parse_call_loop fuel
                (Expr.Unary UnaryOp.PostDecrement expr) p5
            else pure (expr, p5)

def finish_function_call (fuel : Nat) (callee : Expr) (p : Parser) :
    PRes (Expr × Parser) :=
  match fuel with
  | 0 => throw PErr.panic
  | fuel + 1 => do
    let name ← (match callee with
      | Expr.Variable n => pure n
      | _ => throw (PErr.msg "Invalid call target"))
    let cr ← check p PTokenType.RightParen
    let (args, p1) ←
      if cr then pure (([] : List Expr), p)
      else parse_args_loop fuel p
    let p2 ← consume p1 PTokenType.RightParen
      "Expected \x27)\x27 after arguments"
    pure (Expr.FunctionCall name args, p2)

def finish_method_call (fuel : Nat) (object : Expr) (method : String)
    (p : Parser) : PRes (Expr × Parser) :=
  match fuel with
  | 0 => throw PErr.panic
  | fuel + 1 => do
    let cr ← check p PTokenType.RightParen
    let (args, p1) ←
      if cr then pure (([] : List Expr), p)
      else parse_args_loop fuel p
    let p2 ← consume p1 PTokenType.RightParen
      "Expected \x27)\x27 after method arguments"
    pure (Expr.MethodCall object method args, p2)

/-- The comma-separated expression-list `loop` shared verbatim by
function calls, method calls, static calls and array initialisers. -/
def parse_args_loop (fuel : Nat) (p : Parser) :
    PRes (List Expr × Parser) :=
  match fuel with
  | 0 => throw PErr.panic
  | fuel + 1 => do
    let (e, p1) ← parse_expression fuel p
    let (mc, p2) ← match_token p1 PTokenType.Comma
    if mc then do
      let (rest, p3) ← parse_args_loop fuel p2
      pure (e :: rest, p3)
    else pure ([e], p2)

/-- The field list `loop` of the struct-initialiser branch of
`parse_primary`. -/
def parse_struct_init_fields_loop (fuel : Nat) (p : Parser) :
    PRes (List (String × Expr) × Parser) :=
  match fuel with
  | 0 => throw PErr.panic
  | fuel + 1 => do
    let (mi, p1) ← match_token p (PTokenType.Identifier "")
    if !mi then
      throw (PErr.msg "Expected field name in struct initializer")
    let field_name ← get_identifier p1
    let p2 ← consume p1 PTokenType.Colon
      "Expected \x27:\x27 after field name"
    let (value, p3) ← parse_expression fuel p2
    let (mc, p4) ← match_token p3 PTokenType.Comma
    if mc then do
      let (rest, p5) ← parse_struct_init_fields_loop fuel p4
      pure ((field_name, value) :: rest, p5)
    else pure ([(field_name, value)], p4)

def parse_primary (fuel : Nat) (p : Parser) : PRes (Expr × Parser) :=
  match fuel with
  | 0 => throw PErr.panic
  | fuel + 1 => do
    let t ← peek p
    match t with
    | PTokenType.BoolLiteral true => do
      let (_, p1) ← advance p
      pure (Expr.Literal (LiteralValue.Bool true), p1)
    | PTokenType.BoolLiteral false => do
      let (_, p1) ← advance p
      pure (Expr.Literal (LiteralValue.Bool false), p1)
    | PTokenType.None => do
      let (_, p1) ← advance p
      pure (Expr.Literal LiteralValue.None, p1)
    | PTokenType.IntLiteral val => do
      let (_, p1) ← advance p
      pure (Expr.Literal (LiteralValue.Int val), p1)
    | PTokenType.FloatLiteral val => do
      let (_, p1) ← advance p
      pure (Expr.Literal (LiteralValue.Float val), p1)
    | PTokenType.StringLiteral val => do
      let (_, p1) ← advance p
      pure (Expr.Literal (LiteralValue.String val), p1)
    | PTokenType.CharLiteral val => do
      let (_, p1) ← advance p
      pure (Expr.Literal (LiteralValue.Char val), p1)
    | PTokenType.Identifier name => do
      let (_, p1) ← advance p
      let (ms, p2) ← match_token p1 PTokenType.Scope
      if ms then do
        let (mi, p3) ← match_token p2 (PTokenType.Identifier "")
        if !mi then
          throw (PErr.msg "Expected method name after \x27::\x27")
        let method ← get_identifier p3
        let p4 ← consume p3 PTokenType.LeftParen
          "Expected \x27(\x27 for static call"
        let cr ← check p4 PTokenType.RightParen
        let (args, p5) ←
          if cr then pure (([] : List Expr), p4)
          else parse_args_loop fuel p4
        let p6 ← consume p5 PTokenType.RightParen
          "Expected \x27)\x27 after static call arguments"
        pure (Expr.StaticCall name method args, p6)
      else do
        let (mb, p3) ← match_token p2 PTokenType.LeftBrace
        if mb then do
          let cr ← check p3 PTokenType.RightBrace
          let (fields, p4) ←
            if cr then pure (([] : List (String × Expr)), p3)
            else parse_struct_init_fields_loop fuel p3
          let p5 ← consume p4 PTokenType.RightBrace
            "Expected \x27\x7d\x27 after struct fields"
          pure (Expr.StructInit name fields, p5)
        else pure (Expr.Variable name, p3)
    | PTokenType.LeftParen => do
      let (_, p1) ← advance p
      let (expr, p2) ← parse_expression fuel p1
      let p3 ← consume p2 PTokenType.RightParen
        "Expected \x27)\x27 after expression."
      pure (expr, p3)
    | PTokenType.LeftBracket => do
      let (_, p1) ← advance p
      let cr ← check p1 PTokenType.RightBracket
      let (elements, p2) ←
        if cr then pure (([] : List Expr), p1)
        else parse_args_loop fuel p1
      let p3 ← consume p2 PTokenType.RightBracket
        "Expected \x27]\x27 after array elements"
      pure (Expr.ArrayInit elements, p3)
    | _ =>
      throw (PErr.msg ("Expected expression, found " ++ ptt_repr t))

end

/-- Token stream for `let x: i32 = a + b * c;` with the three integer
literals left symbolic. -/
def c2_tokens (a b c : Int) : List PToken :=
  [{ token_type := PTokenType.Let, line := 1, column := 1 },
   { token_type := PTokenType.Identifier "x", line := 1, column := 5 },
   { token_type := PTokenType.Colon, line := 1, column := 6 },
   { token_type := PTokenType.Identifier "i32", line := 1, column := 8 },
   { token_type := PTokenType.Assign, line := 1, column := 12 },
   { token_type := PTokenType.IntLiteral a, line := 1, column := 14 },
   { token_type := PTokenType.Plus, line := 1, column := 16 },
   { token_type := PTokenType.IntLiteral b, line := 1, column := 18 },
   { token_type := PTokenType.Multiply, line := 1, column := 20 },
   { token_type := PTokenType.IntLiteral c, line := 1, column := 22 },
   { token_type := PTokenType.Semicolon, line := 1, column := 23 },
   { token_type := PTokenType.Eof, line := 1, column := 24 }]

/-- **C2.** Parsing `let x: i32 = a + b * c;` succeeds and yields a
variable declaration whose initializer is
`Binary(Add, Literal(a), Binary(Multiply, Literal(b), Literal(c)))`:
`parse_factor` consumes `b * c` while producing the right operand of
the `+` inside `parse_term`, so multiplication binds tighter than
addition; the claimed concrete instance is `a = 1`, `b = 2`,
`c = 3`. -/
theorem parse_term_precedence :
    ∀ a b c : Int,
      parse 50 (Parser.new (c2_tokens a b c)) =
        Except.ok [Statement.VariableDeclaration
          { is_mutable := true, name := "x", var_type := Ty.I32,
            initializer :=
              Expr.Binary (Expr.Literal (LiteralValue.Int a)) BinaryOp.Add
                (Expr.Binary (Expr.Literal (LiteralValue.Int b))
                  BinaryOp.Multiply
                  (Expr.Literal (LiteralValue.Int c))) }] :=
  fun _ _ _ => rfl

/-- **C7 (counterexample).** The claim says a token stream containing
no `main` function declaration fails with a parse error reporting the
missing entry function.  The empty program (a bare `Eof` token)
contains no `main` declaration, yet `parse` returns `Ok([])`:
`Parser::parse` only loops over statements and performs no
entry-function check. -/
theorem parse_no_main_counterexample :
    parse 50 (Parser.new
      [{ token_type := PTokenType.Eof, line := 1, column := 1 }]) =
    Except.ok [] :=
  rfl

/-- Token stream for `fn foo() -> void { return; }` — a program whose
only function is named `foo`, not `main`. -/
def c7_tokens : List PToken :=
  [{ token_type := PTokenType.Function, line := 1, column := 1 },
   { token_type := PTokenType.Identifier "foo", line := 1, column := 4 },
   { token_type := PTokenType.LeftParen, line := 1, column := 7 },
   { token_type := PTokenType.RightParen, line := 1, column := 8 },
   { token_type := PTokenType.Arrow, line := 1, column := 10 },
   { token_type := PTokenType.Identifier "void", line := 1, column := 13 },
   { token_type := PTokenType.LeftBrace, line := 1, column := 18 },
   { token_type := PTokenType.Return, line := 1, column := 20 },
   { token_type := PTokenType.Semicolon, line := 1, column := 26 },
   { token_type := PTokenType.RightBrace, line := 1, column := 28 },
   { token_type := PTokenType.Eof, line := 1, column := 29 }]

/-- **C7 (amended).** The parser performs no entry-point check: a
grammatical token stream parses to `Ok` regardless of whether a
`main` function is declared.  Witnessed by the program
`fn foo() -> void { return; }`, whose only function is `foo`. -/
theorem parse_without_main_ok :
    parse 50 (Parser.new c7_tokens) =
    Except.ok [Statement.FunctionDeclaration
      (FnDecl.mk "foo" [] Ty.Void [Statement.Return none])] :=
  rfl

end HParser

namespace Semantic

/-- Token kinds for the legacy AST shared by `type_check.rs` and
`codegen` (both refer to an `ASTNode` whose defining module is not in
the repository snapshot); the variants are the ones those two files
inspect. -/
inductive STokenType
  | IntLiteral (value : Int)
  | FloatLiteral (value : String)
  | CharLiteral (value : Char)
  | StringLiteral (value : String)
  | Identifier (name : String)

/-- A token as the legacy AST carries it: `type_check.rs` reads
`lexeme`, codegen reads `token_type` and `lexeme`. -/
structure Token where
  token_type : STokenType
  lexeme : String

/-- The legacy `ASTNode`, reconstructed from the exhaustive match in
`TypeChecker::check_node` (seven variants, including the `Primtive`
spelling) and the field accesses in both consumers.  The source field
`type_annotation` is rendered `ty_annot`. -/
inductive ASTNode
  | FunctionDeclaration (name : Token) (parameters : List (Token × Token))
      (return_type : Token) (body : List ASTNode)
  | VariableDeclaration (is_const : Bool) (name : Token)
      (ty_annot : Option Token) (initializer : ASTNode)
  | ReturnStatement (value : ASTNode)
  | FunctionCallExpression (name : Token) (arguments : List ASTNode)
  | Expression (token : Token)
  | VariableExpression (name : Token)
  | Primtive (token : Token)

end Semantic

namespace TypeCheck

/-- `TypeChecker::is_primitive`: the fixed fifteen-name set.  Note
that `string` is not in it. -/
def is_primitive (type_name : String) : Bool :=
  match type_name with
  | "i8" | "i16" | "i32" | "i64" | "isize"
  | "u8" | "u16" | "u32" | "u64" | "usize"
  | "f32" | "f64" | "bool" | "char" | "void" => true
  | _ => false

def validate_type (type_name : String) : Except String Unit :=
  if is_primitive type_name then Except.ok ()
  else Except.error ("error: unknown type \x27" ++ type_name ++ "\x27")

/-- The `for (_param_name, param_type) in parameters` loop of the
`FunctionDeclaration` arm of `check_node`. -/
def validate_params : List (Semantic.Token × Semantic.Token) →
    Except String Unit
  | [] => pure ()
  | (_, param_type) :: rest => do
    validate_type param_type.lexeme
    validate_params rest

mutual

/-- `TypeChecker::check_node`. -/
def check_node : Semantic.ASTNode → Except String Unit
  | .FunctionDeclaration _ parameters return_type body => do
    validate_type return_type.lexeme
    validate_params parameters
    check_body body
  | .VariableDeclaration _ _ ty_annot initializer => do
    (match ty_annot with
     | some type_tok => validate_type type_tok.lexeme
     | none => pure ())
    check_node initializer
  | .ReturnStatement value => check_node value
  | .FunctionCallExpression _ arguments => check_body arguments
  | .Expression _ => pure ()
  | .VariableExpression _ => pure ()
  | .Primtive _ => pure ()

/-- The `for stmt in body { self.check_node(stmt)?; }` loops of
`check_node` and the body of `TypeChecker::check`. -/
def check_body : List Semantic.ASTNode → Except String Unit
  | [] => pure ()
  | n :: rest => do
    check_node n
    check_body rest

end

/-- `TypeChecker::check`. -/
def check (ast : List Semantic.ASTNode) : Except String Unit :=
  check_body ast

def isOk : Except String Unit → Bool
  | .ok _ => true
  | .error _ => false

mutual

/-- Specification-side collector (named after the claim wording, not
translated from the code): every type name the claim says the checker
consults — function return types, parameter types and variable type
annotations — in source order. -/
def declared_type_names : Semantic.ASTNode → List String
  | .FunctionDeclaration _ parameters return_type body =>
    return_type.lexeme :: (parameters.map (fun pr => pr.2.lexeme)) ++
      declared_type_names_list body
  | .VariableDeclaration _ _ ty_annot initializer =>
    (match ty_annot with
     | some type_tok => [type_tok.lexeme]
     | none => []) ++ declared_type_names initializer
  | .ReturnStatement value => declared_type_names value
  | .FunctionCallExpression _ arguments => declared_type_names_list arguments
  | .Expression _ => []
  | .VariableExpression _ => []
  | .Primtive _ => []

def declared_type_names_list : List Semantic.ASTNode → List String
  | [] => []
  | n :: rest => declared_type_names n ++ declared_type_names_list rest

end

end TypeCheck

namespace TypeCheck

theorem isOk_pure : isOk (pure ()) = true := rfl

theorem isOk_bind (a : Except String Unit) (f : Unit → Except String Unit) :
    isOk (a >>= f) = (isOk a && isOk (f ())) := by
  cases a with
  | ok u => cases u; rfl
  | error e => rfl

theorem isOk_validate (s : String) :
    isOk (validate_type s) = is_primitive s := by
  cases h : is_primitive s <;> simp [validate_type, h, isOk]

theorem validate_params_isOk (l : List (Semantic.Token × Semantic.Token)) :
    isOk (validate_params l) =
      (l.map (fun pr => pr.2.lexeme)).all is_primitive := by
  induction l with
  | nil => rfl
  | cons hd tl ih =>
    obtain ⟨a, b⟩ := hd
    simp only [validate_params, List.map_cons, List.all_cons]
    rw [isOk_bind, isOk_validate, ih]

theorem check_node_isOk (n : Semantic.ASTNode) :
    isOk (check_node n) = (declared_type_names n).all is_primitive := by
  refine check_node.induct
    (fun m => isOk (check_node m) = (declared_type_names m).all is_primitive)
    (fun l =>
      isOk (check_body l) = (declared_type_names_list l).all is_primitive)
    ?_ ?_ ?_ ?_ ?_ ?_ ?_ ?_ ?_ n
  · intro name parameters return_type body ih
    simp only [check_node, declared_type_names]
    rw [isOk_bind, isOk_bind, isOk_validate, validate_params_isOk, ih]
    simp [List.all_cons, List.all_append, Bool.and_assoc]
  · intro is_const name ty_annot initializer ih
    cases ty_annot with
    | none =>
      simp only [check_node, declared_type_names]
      rw [isOk_bind, ih, isOk_pure, Bool.true_and, List.nil_append]
    | some type_tok =>
      simp only [check_node, declared_type_names]
      rw [isOk_bind, isOk_validate, ih]
      simp [List.all_cons]
  · intro value ih
    simpa only [check_node, declared_type_names] using ih
  · intro name arguments ih
    simpa only [check_node, declared_type_names] using ih
  · intro token
    rfl
  · intro name
    rfl
  · intro token
    rfl
  · rfl
  · intro n rest ih1 ih2
    simp only [check_body, declared_type_names_list, List.all_append]
    rw [isOk_bind, ih1, ih2]

theorem check_body_isOk (l : List Semantic.ASTNode) :
    isOk (check_body l) = (declared_type_names_list l).all is_primitive := by
  induction l with
  | nil => rfl
  | cons n rest ih =>
    simp only [check_body, declared_type_names_list, List.all_append]
    rw [isOk_bind, check_node_isOk, ih]

/-- **C10.** `TypeChecker::check` fails exactly when some declared
type name — a function return type, a parameter type, or a variable
type annotation — falls outside the fixed fifteen-name primitive set;
in particular `string` is outside it, and no other property of the
program ever makes `check` fail. -/
theorem check_ok_iff_primitive_types :
    is_primitive "string" = false ∧
    ∀ ast : List Semantic.ASTNode,
      isOk (check ast) = (declared_type_names_list ast).all is_primitive :=
  ⟨rfl, check_body_isOk⟩

/-- The legacy AST of `fn f() -> i32 { return "x"; }`: a function
declared to return `i32` whose body returns a string literal. -/
def c4_ast : List Semantic.ASTNode :=
  [Semantic.ASTNode.FunctionDeclaration
    { token_type := Semantic.STokenType.Identifier "f", lexeme := "f" }
    []
    { token_type := Semantic.STokenType.Identifier "i32", lexeme := "i32" }
    [Semantic.ASTNode.ReturnStatement
      (Semantic.ASTNode.Expression
        { token_type := Semantic.STokenType.StringLiteral "x",
          lexeme := "\"x\"" })]]

/-- **C4 (code bug).** Type checking `fn f() -> i32 { return "x"; }`
returns `Ok(())` instead of the claimed `TypeMismatch` error: the
checker only validates type-name lexemes and never compares a return
value type against the declared return type. -/
theorem check_return_type_mismatch_accepted :
    check c4_ast = Except.ok () :=
  rfl

end TypeCheck

namespace Codegen

/-- `str::replace("{}", "%d")` at the fixed two-character pattern of
`generate_println_call`: each non-overlapping left-to-right
occurrence of the placeholder braces becomes the C `int` specifier,
irrespective of any argument. -/
def replace_placeholders : List Char → List Char
  | '\x7b' :: '\x7d' :: rest => '%' :: 'd' :: replace_placeholders rest
  | c :: rest => c :: replace_placeholders rest
  | [] => []

/-- The C format string computed by `CodeGen::generate_println_call`
from its argument list: the first argument must be a string-literal
expression, every `\x7b\x7d` placeholder in it is replaced by `%d`
and a newline is appended.  The remaining arguments (and their
types) are summed into the printf call unchanged and never influence
this string. -/
def println_c_format_str (args : List Semantic.ASTNode) :
    Except String String :=
  match args with
  | [] => Except.error "println requires a format string."
  | format_str_node :: _ =>
    match format_str_node with
    | Semantic.ASTNode.Expression token =>
      (match token.token_type with
       | Semantic.STokenType.StringLiteral s =>
         Except.ok (String.mk (replace_placeholders s.data) ++ "\n")
       | _ =>
         Except.error "First argument to println must be a string literal.")
    | _ => Except.error "Invalid first argument to println."

/-- **C5 (code bug).** The lowering of `println` substitutes `%d` for
every placeholder regardless of the corresponding argument type:
the format string never depends on the trailing arguments at all,
and in particular a `char` argument gets `%d` (printing its numeric
code), not the claimed `%c`. -/
theorem println_placeholder_always_int_specifier :
    (∀ (s : String) (rest : List Semantic.ASTNode),
      println_c_format_str
        (Semantic.ASTNode.Expression
          { token_type := Semantic.STokenType.StringLiteral s,
            lexeme := s } :: rest) =
      Except.ok (String.mk (replace_placeholders s.data) ++ "\n")) ∧
    println_c_format_str
      [Semantic.ASTNode.Expression
        { token_type := Semantic.STokenType.StringLiteral "\x7b\x7d",
          lexeme := "\x22\x7b\x7d\x22" },
       Semantic.ASTNode.Expression
        { token_type := Semantic.STokenType.CharLiteral 'A',
          lexeme := "\x27A\x27" }] =
      Except.ok "%d\n" :=
  ⟨fun _ _ => rfl, rfl⟩

end Codegen
